import Mathlib

/-!
# calculateTax (008-Integration-with-Javascript/tax.js)

The program is the single function

    export function calculateTax(income) { return income * 0.15; }

On a Number its only operation is the multiplication of two JavaScript
Numbers, that is of two IEEE-754 binary64 values, rounded to nearest with ties
to even.  The embedding below models a Number as NaN, a signed infinity, or a
signed finite value `m * 2^e / 2^1074` (`e` is the exponent counted from the
smallest subnormal), and models `*` and `+` by rounding the exact integer
result.  What the call does on other values, what it throws and what state it
touches is read off an evaluator of the function's body over JavaScript
values.
-/

set_option exponentiation.threshold 4096

namespace Tax

/-- A JavaScript Number.  `fin neg m e` denotes `(-1)^neg * m * 2^(e - 1074)`. -/
inductive Number where
  | nan : Number
  | inf (neg : Bool) : Number
  | fin (neg : Bool) (m e : Nat) : Number
  deriving DecidableEq, Repr

namespace Number

/-- The finite binary64 values in canonical form: a 53-bit significand, an
exponent of at most 2045 above the subnormal one, and a significand below
`2^52` only in the lowest binade (subnormals and zero). -/
def IsDouble : Number → Prop
  | fin _ m e => m < 2 ^ 53 ∧ e ≤ 2045 ∧ (e = 0 ∨ 2 ^ 52 ≤ m)
  | _ => False

instance (x : Number) : Decidable x.IsDouble := by
  cases x <;> unfold IsDouble <;> infer_instance

/-- A well-formed Number: NaN, an infinity, or a canonical finite double. -/
def IsNumber : Number → Prop
  | nan => True
  | inf _ => True
  | fin s m e => IsDouble (fin s m e)

/-- The Number is neither NaN nor an infinity. -/
def isFinite : Number → Bool
  | fin _ _ _ => true
  | _ => false

/-- The sign bit. -/
def sign : Number → Bool
  | nan => false
  | inf s => s
  | fin s _ _ => s

/-- The rational value of a finite Number (0 for NaN and the infinities, which
have none). -/
def toRat : Number → ℚ
  | fin s m e => (if s then -1 else 1) * ((m : ℚ) * 2 ^ e / 2 ^ 1074)
  | _ => 0

/-- Position of the leading one bit of `n` by repeated halving, at most `fuel`
times. -/
def log2Fuel : Nat → Nat → Nat
  | 0, _ => 0
  | fuel + 1, n => if n < 2 then 0 else log2Fuel fuel (n / 2) + 1

/-- Position of the leading one bit of `n` (0 for `n = 0`). -/
def ilog2 (n : Nat) : Nat := log2Fuel n n

/-- The weight (as a power of two, in input units) of the last place of the
result when the magnitude `n`, counted in units of `2^-(1074+u)`, is rounded to
53 significant bits, never going below the subnormal spacing `2^u`. -/
def ulpExp (u n : Nat) : Nat := max (ilog2 n - 52) u

/-- Drop the low `sh` bits of `n`, rounding to nearest and breaking ties
towards the even quotient. -/
def nearestEven (sh n : Nat) : Nat :=
  if 2 ^ sh < 2 * (n % 2 ^ sh) ∨ (2 * (n % 2 ^ sh) = 2 ^ sh ∧ n / 2 ^ sh % 2 = 1)
  then n / 2 ^ sh + 1 else n / 2 ^ sh

/-- Round the magnitude `n`, counted in units of `2^-(1074+u)`, to the nearest
binary64 value, ties to the even significand; the result overflows to an
infinity above the largest finite double. -/
@[irreducible]
def roundNE (neg : Bool) (u n : Nat) : Number :=
  let sh := ulpExp u n
  let q := nearestEven sh n
  let m := if q = 2 ^ 53 then 2 ^ 52 else q
  let e := if q = 2 ^ 53 then sh - u + 1 else sh - u
  if 2045 < e then inf neg else fin neg m e

/-- Unary minus. -/
def neg : Number → Number
  | nan => nan
  | inf s => inf (!s)
  | fin s m e => fin (!s) m e

/-- Number multiplication (`*`): NaN is contagious, infinity times zero is NaN,
and a finite product is the exact product rounded to nearest-even. -/
def mul : Number → Number → Number
  | nan, _ => nan
  | _, nan => nan
  | inf s, inf t => inf (xor s t)
  | inf s, fin t m _ => if m = 0 then nan else inf (xor s t)
  | fin s m _, inf t => if m = 0 then nan else inf (xor s t)
  | fin s m e, fin t k f => roundNE (xor s t) 1074 (m * k * 2 ^ (e + f))

/-- Number addition (`+`): NaN is contagious, opposite infinities give NaN, and
a finite sum is the exact sum rounded to nearest-even; an exact zero sum is
`-0` only when both operands are negative. -/
def add : Number → Number → Number
  | nan, _ => nan
  | _, nan => nan
  | inf s, inf t => if s = t then inf s else nan
  | inf s, fin _ _ _ => inf s
  | fin _ _ _, inf t => inf t
  | fin s m e, fin t k f =>
    let a := m * 2 ^ e
    let b := k * 2 ^ f
    if s = t then roundNE s 0 (a + b)
    else if a = b then fin false 0 0
    else if b < a then roundNE s 0 (a - b)
    else roundNE t 0 (b - a)

/-- The Number denoted by a non-negative integer literal. -/
def ofNat (n : Nat) : Number := roundNE false 0 (n * 2 ^ 1074)

/-- The magnitude that `roundNE` delivers, in the units of its input. -/
def roundMag (u n : Nat) : Nat := nearestEven (ulpExp u n) n * 2 ^ ulpExp u n

/-- The magnitude of a finite Number in units of `2^-1074`. -/
def mag : Number → Nat
  | fin _ m e => m * 2 ^ e
  | _ => 0

/-- The sign factor of a sign bit. -/
def sgn (s : Bool) : ℚ := if s then -1 else 1

end Number

/-- The Number denoted by the literal `0.15`: the double nearest to 15/100,
`5404319552844595 * 2^-55`. -/
def rate : Number := Number.fin false 5404319552844595 1019

/-- The function `calculateTax` of tax.js: `return income * 0.15;`. -/
def calculateTax (income : Number) : Number := Number.mul income rate

/-- The magnitude of the tax, in units of `2^-2148`, of an income of magnitude
`a` units of `2^-1074`. -/
def taxMag (a : Nat) : Nat :=
  Number.roundMag 1074 (a * (5404319552844595 * 2 ^ 1019))

/-- The largest finite Number, `Number.MAX_VALUE`. -/
def maxValue : Number := Number.fin false 9007199254740991 2045

/-- The body of `calculateTax` read in exact rational arithmetic. -/
def calculateTaxExact (income : ℚ) : ℚ := income * (15 / 100)

/-! ## The function on arbitrary JavaScript values

`income` may be any JavaScript value.  The operator `*` first converts both
operands (`ToNumeric`), which throws for a Symbol, keeps a BigInt, and for an
object runs the object's own conversion code; it then throws a TypeError when
a BigInt meets a Number.  The function is evaluated from its syntax over a
program state `σ`, so that what it reads, writes and throws is a fact about
its body. -/

/-- A JavaScript primitive value.  A string is kept with the Number that
`StringToNumber` gives for it. -/
inductive Prim where
  | undefined : Prim
  | null : Prim
  | boolean (b : Bool) : Prim
  | number (n : Number) : Prim
  | bigint (i : Int) : Prim
  | symbol : Prim
  | string (s : String) (asNumber : Number) : Prim

/-- What a `throw` carries, by kind: the language's TypeError and
ReferenceError, or an exception raised by code of an object. -/
inductive JSError where
  | typeError : JSError
  | referenceError : JSError
  | userError : JSError
  deriving DecidableEq, Repr

/-- A JavaScript value as an arithmetic operator sees it, over program states
`σ`: a primitive, or an object, given by what `ToPrimitive` does on it (the
object's `valueOf` and `toString` run in the current state, may change it, and
return a primitive or throw). -/
inductive Value (σ : Type) where
  | prim (p : Prim) : Value σ
  | object (toPrimitive : σ → Except JSError Prim × σ) : Value σ

/-- A numeric value: a Number or a BigInt. -/
inductive Numeric where
  | number (n : Number) : Numeric
  | bigint (i : Int) : Numeric

/-- The bindings outside the function: reading an outer identifier and
assigning to one, each of which may throw a ReferenceError. -/
structure Host (σ : Type) where
  getGlobal : String → σ → Except JSError (Value σ)
  setGlobal : String → Value σ → σ → Except JSError σ

/-- The host with no outer binding at all. -/
def emptyHost (σ : Type) : Host σ where
  getGlobal := fun _ _ => Except.error JSError.referenceError
  setGlobal := fun _ _ _ => Except.error JSError.referenceError

/-- The conversion `ToPrimitive` with hint number. -/
def toPrimitive {σ : Type} : Value σ → σ → Except JSError Prim × σ
  | Value.prim p, s => (Except.ok p, s)
  | Value.object f, s => f s

/-- The conversion `ToNumeric` of a primitive: a BigInt stays one, a Symbol
throws a TypeError, anything else becomes a Number. -/
def toNumeric : Prim → Except JSError Numeric
  | Prim.undefined => Except.ok (Numeric.number Number.nan)
  | Prim.null => Except.ok (Numeric.number (Number.fin false 0 0))
  | Prim.boolean true => Except.ok (Numeric.number (Number.ofNat 1))
  | Prim.boolean false => Except.ok (Numeric.number (Number.fin false 0 0))
  | Prim.number n => Except.ok (Numeric.number n)
  | Prim.bigint i => Except.ok (Numeric.bigint i)
  | Prim.symbol => Except.error JSError.typeError
  | Prim.string _ n => Except.ok (Numeric.number n)

/-- The operator `*` on two values: convert the left operand, then the right
one, then multiply two Numbers or two BigInts; a BigInt with a Number is a
TypeError. -/
def jsMul {σ : Type} (a b : Value σ) (s : σ) : Except JSError (Value σ) × σ :=
  match toPrimitive a s with
  | (Except.error e, s1) => (Except.error e, s1)
  | (Except.ok pa, s1) =>
    match toNumeric pa with
    | Except.error e => (Except.error e, s1)
    | Except.ok na =>
      match toPrimitive b s1 with
      | (Except.error e, s2) => (Except.error e, s2)
      | (Except.ok pb, s2) =>
        match toNumeric pb with
        | Except.error e => (Except.error e, s2)
        | Except.ok nb =>
          match na, nb with
          | Numeric.number x, Numeric.number y =>
            (Except.ok (Value.prim (Prim.number (Number.mul x y))), s2)
          | Numeric.bigint x, Numeric.bigint y =>
            (Except.ok (Value.prim (Prim.bigint (x * y))), s2)
          | _, _ => (Except.error JSError.typeError, s2)

/-- The expressions a `return` statement of this fragment may hold: the
parameter, an outer identifier, a numeric literal, a product, an assignment
to an outer identifier. -/
inductive Expr where
  | param : Expr
  | global (name : String) : Expr
  | num (n : Number) : Expr
  | mul (a b : Expr) : Expr
  | assign (name : String) (e : Expr) : Expr

/-- Evaluation of an expression with the parameter bound to `arg`, from the
state `s`: the completion (a value or a throw) and the state afterwards. -/
def eval {σ : Type} (h : Host σ) (arg : Value σ) : Expr → σ → Except JSError (Value σ) × σ
  | Expr.param, s => (Except.ok arg, s)
  | Expr.global x, s => (h.getGlobal x s, s)
  | Expr.num n, s => (Except.ok (Value.prim (Prim.number n)), s)
  | Expr.mul a b, s =>
    match eval h arg a s with
    | (Except.error e, s1) => (Except.error e, s1)
    | (Except.ok va, s1) =>
      match eval h arg b s1 with
      | (Except.error e, s2) => (Except.error e, s2)
      | (Except.ok vb, s2) => jsMul va vb s2
  | Expr.assign x e, s =>
    match eval h arg e s with
    | (Except.error err, s1) => (Except.error err, s1)
    | (Except.ok v, s1) =>
      match h.setGlobal x v s1 with
      | Except.error err => (Except.error err, s1)
      | Except.ok s2 => (Except.ok v, s2)

/-- The expression returned by `calculateTax`: `income * 0.15`. -/
def calculateTaxBody : Expr := Expr.mul Expr.param (Expr.num rate)

/-- A call `calculateTax(income)` from the state `s`: its completion and the
state afterwards. -/
def calculateTaxJS {σ : Type} (h : Host σ) (income : Value σ) (s : σ) :
    Except JSError (Value σ) × σ :=
  eval h income calculateTaxBody s

/-- The primitives that `ToNumeric` turns into a Number: all but a BigInt and
a Symbol. -/
def convertsToNumber : Prim → Bool
  | Prim.bigint _ => false
  | Prim.symbol => false
  | _ => true

/-- The Number a completion returns, if it returns one. -/
def returnedNumber {σ : Type} : Except JSError (Value σ) → Option Number
  | Except.ok (Value.prim (Prim.number n)) => some n
  | _ => none

/-- An object whose `valueOf` returns a counter kept in the state and
increments it, as `{ valueOf() { return counter++; } }`. -/
def counterObject : Value Nat :=
  Value.object (fun s => (Except.ok (Prim.number (Number.ofNat s)), s + 1))


namespace Number

/-! ## The leading-bit position -/

theorem log2Fuel_spec (fuel : Nat) : ∀ n, n ≤ fuel → n ≠ 0 →
    2 ^ log2Fuel fuel n ≤ n ∧ n < 2 ^ (log2Fuel fuel n + 1) := by
  induction fuel with
  | zero => intro n h h0; omega
  | succ fuel ih =>
    intro n h h0
    unfold log2Fuel
    by_cases h2 : n < 2
    · rw [if_pos h2]
      have : n = 1 := by omega
      subst this; simp
    · rw [if_neg h2]
      have hle : n / 2 ≤ fuel := by omega
      have hne : n / 2 ≠ 0 := by omega
      obtain ⟨h1, h3⟩ := ih (n / 2) hle hne
      constructor
      · rw [pow_succ]; omega
      · rw [pow_succ]; omega

theorem ilog2_zero : ilog2 0 = 0 := rfl

theorem pow_ilog2_le {n : Nat} (h : n ≠ 0) : 2 ^ ilog2 n ≤ n :=
  (log2Fuel_spec n n le_rfl h).1

theorem lt_pow_ilog2 (n : Nat) : n < 2 ^ (ilog2 n + 1) := by
  by_cases h : n = 0
  · subst h; simp
  · exact (log2Fuel_spec n n le_rfl h).2

theorem ilog2_mono {a b : Nat} (h : a ≤ b) : ilog2 a ≤ ilog2 b := by
  by_cases ha : a = 0
  · subst ha; rw [ilog2_zero]; exact Nat.zero_le _
  · have h1 := pow_ilog2_le ha
    have h2 := lt_pow_ilog2 b
    have h3 : 2 ^ ilog2 a < 2 ^ (ilog2 b + 1) := lt_of_le_of_lt (le_trans h1 h) h2
    have := (Nat.pow_lt_pow_iff_right (by norm_num : 1 < 2)).1 h3
    omega

theorem ilog2_eq_of_bounds {n k : Nat} (h1 : 2 ^ k ≤ n) (h2 : n < 2 ^ (k + 1)) :
    ilog2 n = k := by
  have hn : n ≠ 0 := by
    have : 0 < 2 ^ k := by positivity
    omega
  have a1 := pow_ilog2_le hn
  have a2 := lt_pow_ilog2 n
  have b1 : 2 ^ k < 2 ^ (ilog2 n + 1) := lt_of_le_of_lt h1 a2
  have b2 : 2 ^ ilog2 n < 2 ^ (k + 1) := lt_of_le_of_lt a1 h2
  have c1 := (Nat.pow_lt_pow_iff_right (by norm_num : 1 < 2)).1 b1
  have c2 := (Nat.pow_lt_pow_iff_right (by norm_num : 1 < 2)).1 b2
  omega

/-! ## The last-place weight -/

theorem le_ulpExp (u n : Nat) : u ≤ ulpExp u n := le_max_right _ _

theorem ulpExp_mono (u : Nat) {a b : Nat} (h : a ≤ b) : ulpExp u a ≤ ulpExp u b := by
  unfold ulpExp
  have := ilog2_mono h
  omega

theorem lt_pow_ulpExp (u n : Nat) : n < 2 ^ (ulpExp u n + 53) := by
  have h1 := lt_pow_ilog2 n
  have h2 : ilog2 n + 1 ≤ ulpExp u n + 53 := by unfold ulpExp; omega
  exact lt_of_lt_of_le h1 (Nat.pow_le_pow_right (by norm_num) h2)

theorem pow_le_of_lt_ulpExp {u n : Nat} (h : u < ulpExp u n) :
    2 ^ (ulpExp u n + 52) ≤ n := by
  have hn : n ≠ 0 := by
    rintro rfl
    unfold ulpExp at h; rw [ilog2_zero] at h; omega
  have h1 := pow_ilog2_le hn
  have h2 : ulpExp u n + 52 ≤ ilog2 n := by unfold ulpExp at h ⊢; omega
  exact le_trans (Nat.pow_le_pow_right (by norm_num) h2) h1

/-! ## Rounding a quotient to nearest-even -/

theorem nearestEven_cases (sh n : Nat) :
    nearestEven sh n = n / 2 ^ sh ∨ nearestEven sh n = n / 2 ^ sh + 1 := by
  unfold nearestEven
  split_ifs
  · exact Or.inr rfl
  · exact Or.inl rfl

/-- Nearest: the rounded quotient, scaled back, is within half a last place
of `n`. -/
theorem nearestEven_err (sh n : Nat) :
    2 * (nearestEven sh n * 2 ^ sh) ≤ 2 * n + 2 ^ sh ∧
    2 * n ≤ 2 * (nearestEven sh n * 2 ^ sh) + 2 ^ sh := by
  have hp : 0 < 2 ^ sh := by positivity
  have hdm := Nat.div_add_mod n (2 ^ sh)
  have hr := Nat.mod_lt n hp
  unfold nearestEven
  generalize 2 ^ sh = p at *
  generalize hq : n / p = q at *
  generalize n % p = r at *
  have hqp : p * q = q * p := Nat.mul_comm _ _
  split_ifs with h
  · rw [Nat.add_mul]
    generalize q * p = t at *
    omega
  · generalize q * p = t at *
    omega

theorem nearestEven_mono (sh : Nat) {a b : Nat} (h : a ≤ b) :
    nearestEven sh a ≤ nearestEven sh b := by
  have hp : 0 < 2 ^ sh := by positivity
  have hq : a / 2 ^ sh ≤ b / 2 ^ sh := Nat.div_le_div_right h
  rcases Nat.lt_or_eq_of_le hq with hlt | heq
  · rcases nearestEven_cases sh a with h1 | h1 <;>
    rcases nearestEven_cases sh b with h2 | h2 <;> omega
  · have ha := Nat.div_add_mod a (2 ^ sh)
    have hb := Nat.div_add_mod b (2 ^ sh)
    have hr : a % 2 ^ sh ≤ b % 2 ^ sh := by
      rw [heq] at ha
      generalize 2 ^ sh * (b / 2 ^ sh) = t at *
      omega
    unfold nearestEven
    rw [heq]
    generalize 2 ^ sh = p at *
    generalize a % p = r1 at *
    generalize b % p = r2 at *
    generalize b / p = q at *
    split_ifs with h1 h2 h2 <;> omega

theorem nearestEven_mul_pow (sh k : Nat) : nearestEven sh (k * 2 ^ sh) = k := by
  have hp : 0 < 2 ^ sh := by positivity
  unfold nearestEven
  rw [Nat.mul_mod_left, Nat.mul_div_cancel _ hp]
  have : ¬ (2 ^ sh < 2 * 0 ∨ 2 * 0 = 2 ^ sh ∧ k % 2 = 1) := by omega
  rw [if_neg this]

theorem le_nearestEven {sh k n : Nat} (h : k * 2 ^ sh ≤ n) : k ≤ nearestEven sh n := by
  have := nearestEven_mono sh h
  rwa [nearestEven_mul_pow] at this

theorem nearestEven_le {sh k n : Nat} (h : n ≤ k * 2 ^ sh) : nearestEven sh n ≤ k := by
  have := nearestEven_mono sh h
  rwa [nearestEven_mul_pow] at this

/-! ## The rounded magnitude -/

theorem nearestEven_ulpExp_le (u n : Nat) : nearestEven (ulpExp u n) n ≤ 2 ^ 53 := by
  apply nearestEven_le
  have := lt_pow_ulpExp u n
  rw [Nat.add_comm, pow_add] at this
  exact le_of_lt this

theorem le_nearestEven_ulpExp {u n : Nat} (h : u < ulpExp u n) :
    2 ^ 52 ≤ nearestEven (ulpExp u n) n := by
  apply le_nearestEven
  have := pow_le_of_lt_ulpExp h
  rwa [Nat.add_comm, pow_add] at this

theorem roundMag_mono (u : Nat) {a b : Nat} (h : a ≤ b) : roundMag u a ≤ roundMag u b := by
  unfold roundMag
  rcases Nat.lt_or_eq_of_le (ulpExp_mono u h) with hlt | heq
  · have h1 : nearestEven (ulpExp u a) a ≤ 2 ^ 53 := nearestEven_ulpExp_le u a
    have h2 : 2 ^ 52 ≤ nearestEven (ulpExp u b) b :=
      le_nearestEven_ulpExp (lt_of_le_of_lt (le_ulpExp u a) hlt)
    have h3 : 2 ^ (ulpExp u a + 1) ≤ 2 ^ ulpExp u b :=
      Nat.pow_le_pow_right (by norm_num) hlt
    calc nearestEven (ulpExp u a) a * 2 ^ ulpExp u a
        ≤ 2 ^ 53 * 2 ^ ulpExp u a := Nat.mul_le_mul_right _ h1
      _ = 2 ^ 52 * 2 ^ (ulpExp u a + 1) := by rw [pow_succ]; ring
      _ ≤ 2 ^ 52 * 2 ^ ulpExp u b := Nat.mul_le_mul_left _ h3
      _ ≤ nearestEven (ulpExp u b) b * 2 ^ ulpExp u b := Nat.mul_le_mul_right _ h2
  · rw [heq]
    exact Nat.mul_le_mul_right _ (nearestEven_mono _ h)

/-- The rounded magnitude is within half a last place of the input, and the
last place is the subnormal spacing or at most `2^-52` of the input. -/
theorem roundMag_err (u n : Nat) :
    2 * roundMag u n ≤ 2 * n + 2 ^ ulpExp u n ∧
    2 * n ≤ 2 * roundMag u n + 2 ^ ulpExp u n ∧
    (ulpExp u n = u ∨ 2 ^ ulpExp u n * 2 ^ 52 ≤ n) := by
  refine ⟨(nearestEven_err _ n).1, (nearestEven_err _ n).2, ?_⟩
  rcases Nat.lt_or_eq_of_le (le_ulpExp u n) with h | h
  · right
    have := pow_le_of_lt_ulpExp h
    rwa [pow_add] at this
  · left; exact h.symm

/-- A canonical double is a fixed point of rounding. -/
theorem roundMag_of_double (u : Nat) {m e : Nat} (hm : m < 2 ^ 53)
    (hn : e = 0 ∨ 2 ^ 52 ≤ m) : roundMag u (m * 2 ^ (e + u)) = m * 2 ^ (e + u) := by
  have hsh : ulpExp u (m * 2 ^ (e + u)) = e + u := by
    unfold ulpExp
    by_cases h52 : 2 ^ 52 ≤ m
    · have : ilog2 (m * 2 ^ (e + u)) = 52 + (e + u) := by
        apply ilog2_eq_of_bounds
        · rw [pow_add 2 52]; exact Nat.mul_le_mul_right _ h52
        · rw [show 52 + (e + u) + 1 = 53 + (e + u) by ring, pow_add 2 53]
          exact Nat.mul_lt_mul_of_lt_of_le hm le_rfl (Nat.two_pow_pos _)
      rw [this]; omega
    · have he : e = 0 := by omega
      subst he
      have hlt : m * 2 ^ (0 + u) < 2 ^ (52 + u) := by
        rw [Nat.zero_add, pow_add 2 52]
        exact Nat.mul_lt_mul_of_lt_of_le (by omega) le_rfl (Nat.two_pow_pos _)
      have : ilog2 (m * 2 ^ (0 + u)) < 52 + u := by
        by_contra hc
        push_neg at hc
        have hne : m * 2 ^ (0 + u) ≠ 0 := by
          intro h0
          rw [h0, ilog2_zero] at hc; omega
        have := pow_ilog2_le hne
        have := Nat.pow_le_pow_right (by norm_num : 0 < 2) hc
        omega
      omega
  unfold roundMag
  rw [hsh, nearestEven_mul_pow]

/-! ## What `roundNE` returns -/

theorem roundNE_cases (neg : Bool) (u n : Nat) :
    roundNE neg u n = inf neg ∨ ∃ m e, roundNE neg u n = fin neg m e := by
  unfold roundNE
  simp only
  split_ifs
  · exact Or.inl rfl
  · exact Or.inr ⟨_, _, rfl⟩
  · exact Or.inl rfl
  · exact Or.inr ⟨_, _, rfl⟩

/-- A finite result of `roundNE` is a canonical double carrying the requested
sign, and its magnitude is the rounded magnitude. -/
theorem roundNE_eq_fin {neg : Bool} {u n : Nat} {s : Bool} {m e : Nat}
    (h : roundNE neg u n = fin s m e) :
    s = neg ∧ m * 2 ^ (e + u) = roundMag u n ∧ m < 2 ^ 53 ∧ e ≤ 2045 ∧
      (e = 0 ∨ 2 ^ 52 ≤ m) := by
  have hu := le_ulpExp u n
  have hq := nearestEven_ulpExp_le u n
  unfold roundNE at h
  simp only at h
  unfold roundMag
  by_cases hc : nearestEven (ulpExp u n) n = 2 ^ 53
  · rw [if_pos hc, if_pos hc] at h
    split_ifs at h with h2
    injection h with h3 h4 h5
    subst h3 h4 h5
    refine ⟨rfl, ?_, by norm_num, by omega, Or.inr le_rfl⟩
    rw [hc, show ulpExp u n - u + 1 + u = ulpExp u n + 1 by omega, pow_succ]
    ring
  · rw [if_neg hc, if_neg hc] at h
    split_ifs at h with h2
    injection h with h3 h4 h5
    subst h3 h4 h5
    refine ⟨rfl, ?_, by omega, by omega, ?_⟩
    · rw [show ulpExp u n - u + u = ulpExp u n by omega]
    · rcases Nat.lt_or_eq_of_le hu with hlt | heq
      · exact Or.inr (le_nearestEven_ulpExp hlt)
      · left; omega

/-- Below `2^(u+2097)` input units the rounding does not overflow. -/
theorem roundNE_finite_of_lt (neg : Bool) {u n : Nat} (h : n < 2 ^ (u + 2097)) :
    ∃ m e, roundNE neg u n = fin neg m e := by
  have hsh : ulpExp u n ≤ u + 2044 := by
    unfold ulpExp
    have : ilog2 n < u + 2097 := by
      by_cases h0 : n = 0
      · subst h0; rw [ilog2_zero]; omega
      · have h1 := pow_ilog2_le h0
        exact (Nat.pow_lt_pow_iff_right (by norm_num : 1 < 2)).1 (lt_of_le_of_lt h1 h)
    omega
  unfold roundNE
  simp only
  split_ifs with h1 h2 h2
  · omega
  · exact ⟨_, _, rfl⟩
  · omega
  · exact ⟨_, _, rfl⟩

/-- The rounding overflows exactly when the rounded magnitude reaches
`2^1024`. -/
theorem roundNE_eq_inf_iff (neg : Bool) (u n : Nat) :
    roundNE neg u n = inf neg ↔ 2 ^ (u + 2098) ≤ roundMag u n := by
  constructor
  · intro h
    have hu := le_ulpExp u n
    unfold roundNE at h
    simp only at h
    unfold roundMag
    by_cases hc : nearestEven (ulpExp u n) n = 2 ^ 53
    · rw [if_pos hc] at h
      split_ifs at h with h2
      rw [hc, ← pow_add]
      exact Nat.pow_le_pow_right (by norm_num) (by omega)
    · rw [if_neg hc] at h
      split_ifs at h with h2
      have h3 : u < ulpExp u n := by omega
      have h4 := le_nearestEven_ulpExp h3
      calc 2 ^ (u + 2098) ≤ 2 ^ (52 + ulpExp u n) :=
            Nat.pow_le_pow_right (by norm_num) (by omega)
        _ = 2 ^ 52 * 2 ^ ulpExp u n := by rw [pow_add]
        _ ≤ _ := Nat.mul_le_mul_right _ h4
  · intro h
    rcases roundNE_cases neg u n with h1 | ⟨m, e, h1⟩
    · exact h1
    · exfalso
      obtain ⟨_, h2, h3, h4, _⟩ := roundNE_eq_fin h1
      have : m * 2 ^ (e + u) < 2 ^ 53 * 2 ^ (2045 + u) :=
        Nat.mul_lt_mul_of_lt_of_le h3 (Nat.pow_le_pow_right (by norm_num) (by omega))
          (Nat.two_pow_pos _)
      rw [← pow_add, h2] at this
      have h5 : 53 + (2045 + u) = u + 2098 := by ring
      rw [h5] at this
      omega

/-! ## Rounding error over the rationals -/

theorem abs_sgn (s : Bool) : |sgn s| = 1 := by
  cases s <;> simp [sgn]

theorem toRat_fin (s : Bool) (m e : Nat) :
    toRat (fin s m e) = sgn s * ((mag (fin s m e) : ℚ) / 2 ^ 1074) := by
  simp [toRat, sgn, mag]

theorem abs_toRat_fin (s : Bool) (m e : Nat) :
    |toRat (fin s m e)| = (mag (fin s m e) : ℚ) / 2 ^ 1074 := by
  rw [toRat_fin, abs_mul, abs_sgn, one_mul, abs_of_nonneg]
  positivity

/-- Half a last place is at most half the subnormal spacing plus `2^-53` of
the input. -/
theorem roundMag_err_rat (u n : Nat) :
    |(roundMag u n : ℚ) - n| ≤ 2 ^ u / 2 + (n : ℚ) / 2 ^ 53 := by
  obtain ⟨h1, h2, h3⟩ := roundMag_err u n
  have q1 : (2 : ℚ) * roundMag u n ≤ 2 * n + 2 ^ ulpExp u n := by exact_mod_cast h1
  have q2 : (2 : ℚ) * n ≤ 2 * roundMag u n + 2 ^ ulpExp u n := by exact_mod_cast h2
  have hn : (0 : ℚ) ≤ n := Nat.cast_nonneg n
  have hu : (0 : ℚ) < 2 ^ u := by positivity
  rw [abs_le]
  rcases h3 with h | h
  · rw [h] at q1 q2
    have : (0 : ℚ) ≤ (n : ℚ) / 2 ^ 53 := by positivity
    constructor <;> linarith
  · have q3 : (2 : ℚ) ^ ulpExp u n * 2 ^ 52 ≤ n := by exact_mod_cast h
    have q4 : (2 : ℚ) ^ ulpExp u n / 2 ≤ (n : ℚ) / 2 ^ 53 := by
      rw [div_le_div_iff₀ (by norm_num) (by norm_num)]
      have : (2 : ℚ) ^ 53 = 2 ^ 52 * 2 := by norm_num
      rw [this]
      nlinarith
    constructor <;> linarith

/-- With no subnormal floor above the input units (`u = 0`, as for sums) the
error is purely relative. -/
theorem roundMag_err_rat_zero (n : Nat) :
    |(roundMag 0 n : ℚ) - n| ≤ (n : ℚ) / 2 ^ 53 := by
  obtain ⟨h1, h2, h3⟩ := roundMag_err 0 n
  have hn : (0 : ℚ) ≤ n := Nat.cast_nonneg n
  rcases h3 with h | h
  · rw [h] at h1 h2
    have : roundMag 0 n = n := by omega
    rw [this, sub_self, abs_zero]
    positivity
  · have q1 : (2 : ℚ) * roundMag 0 n ≤ 2 * n + 2 ^ ulpExp 0 n := by exact_mod_cast h1
    have q2 : (2 : ℚ) * n ≤ 2 * roundMag 0 n + 2 ^ ulpExp 0 n := by exact_mod_cast h2
    have q3 : (2 : ℚ) ^ ulpExp 0 n * 2 ^ 52 ≤ n := by exact_mod_cast h
    have q4 : (2 : ℚ) ^ ulpExp 0 n / 2 ≤ (n : ℚ) / 2 ^ 53 := by
      rw [div_le_div_iff₀ (by norm_num) (by norm_num)]
      have : (2 : ℚ) ^ 53 = 2 ^ 52 * 2 := by norm_num
      rw [this]
      nlinarith
    rw [abs_le]
    constructor <;> linarith

/-- The value of a finite result of `roundNE`. -/
theorem toRat_roundNE {neg : Bool} {u n : Nat} {s : Bool} {m e : Nat}
    (h : roundNE neg u n = fin s m e) :
    toRat (fin s m e) = sgn neg * ((roundMag u n : ℚ) / (2 ^ 1074 * 2 ^ u)) := by
  obtain ⟨hs, hm, -⟩ := roundNE_eq_fin h
  subst hs
  have : (m : ℚ) * 2 ^ (e + u) = roundMag u n := by exact_mod_cast hm
  rw [toRat_fin, ← this]
  simp only [mag, Nat.cast_mul, Nat.cast_pow, Nat.cast_ofNat, pow_add]
  field_simp
  ring

end Number

open Number

/-! ## calculateTax on finite input -/

theorem calculateTax_fin_eq (s : Bool) (m e : Nat) :
    calculateTax (fin s m e) =
      roundNE s 1074 (m * 5404319552844595 * 2 ^ (e + 1019)) := by
  simp [calculateTax, rate, Number.mul]

theorem taxInput_lt {m e : Nat} (hm : m < 2 ^ 53) (he : e ≤ 2045) :
    m * 5404319552844595 * 2 ^ (e + 1019) < 2 ^ (1074 + 2096) := by
  have h1 : m * 5404319552844595 < 2 ^ 106 := by omega
  calc m * 5404319552844595 * 2 ^ (e + 1019)
      < 2 ^ 106 * 2 ^ (e + 1019) :=
        Nat.mul_lt_mul_of_lt_of_le h1 le_rfl (Nat.two_pow_pos _)
    _ = 2 ^ (106 + (e + 1019)) := (pow_add 2 106 (e + 1019)).symm
    _ ≤ 2 ^ (1074 + 2096) := Nat.pow_le_pow_right (by norm_num) (by omega)

/-- On a finite double the tax is a finite double of the same sign whose
magnitude is the rounded exact product. -/
theorem calculateTax_fin {s : Bool} {m e : Nat} (h : IsDouble (fin s m e)) :
    ∃ k f, calculateTax (fin s m e) = fin s k f ∧ IsDouble (fin s k f) ∧
      k * 2 ^ (f + 1074) = roundMag 1074 (m * 5404319552844595 * 2 ^ (e + 1019)) := by
  obtain ⟨hm, he, -⟩ := h
  have hlt : m * 5404319552844595 * 2 ^ (e + 1019) < 2 ^ (1074 + 2097) :=
    lt_of_lt_of_le (taxInput_lt hm he) (Nat.pow_le_pow_right (by norm_num) (by omega))
  obtain ⟨k, f, hr⟩ := roundNE_finite_of_lt s hlt
  obtain ⟨-, h2, h3, h4, h5⟩ := roundNE_eq_fin hr
  exact ⟨k, f, by rw [calculateTax_fin_eq, hr], ⟨h3, h4, h5⟩, h2⟩

theorem two_pow_1074 : (2 : ℚ) ^ 1074 = 2 ^ 1019 * 2 ^ 55 := by
  have h : (1074 : ℕ) = 1019 + 55 := by norm_num
  rw [h, pow_add]

theorem two_pow_1075 : (2 : ℚ) ^ 1075 = 2 ^ 1019 * 2 ^ 55 * 2 := by
  have h : (1075 : ℕ) = 1019 + 55 + 1 := by norm_num
  rw [h, pow_succ, pow_add]

/-- The error computation behind `calculateTax_error`, with the magnitudes as
rationals: `a` is the income in subnormal units, `P = 2^1019` and `R` the
rounded product. -/
theorem tax_error_core (R a P : ℚ) (ha : 0 ≤ a) (hP : 0 < P)
    (h : |R - a * P * 5404319552844595| ≤
      P * 2 ^ 55 / 2 + a * P * 5404319552844595 / 2 ^ 53) :
    |R / (P * 2 ^ 55 * (P * 2 ^ 55)) - a / (P * 2 ^ 55) * (15 / 100)| ≤
      1 / (P * 2 ^ 55 * 2) + a / (P * 2 ^ 55) / 2 ^ 55 := by
  have hT : 0 ≤ a * P := by positivity
  have key : R / (P * 2 ^ 55 * (P * 2 ^ 55)) - a / (P * 2 ^ 55) * (15 / 100) =
      (R - a * P * 2 ^ 55 * (15 / 100)) / (P * 2 ^ 55 * (P * 2 ^ 55)) := by
    field_simp
    ring
  have rhs : (1 / (P * 2 ^ 55 * 2) + a / (P * 2 ^ 55) / 2 ^ 55) *
      (P * 2 ^ 55 * (P * 2 ^ 55)) = P * 2 ^ 55 / 2 + a * P := by
    field_simp
    ring
  rw [key, abs_div, abs_of_pos (by positivity : (0 : ℚ) < P * 2 ^ 55 * (P * 2 ^ 55)),
    div_le_iff₀ (by positivity), rhs]
  rw [abs_le] at h ⊢
  obtain ⟨l, r⟩ := h
  norm_num at l r ⊢
  constructor <;> linarith

/-- The value of the tax of a finite double differs from 15% of the value of
the income by at most half the subnormal spacing plus `2^-55` of the income. -/
theorem calculateTax_error (x : Number) (hx : x.IsDouble) :
    |toRat (calculateTax x) - toRat x * (15 / 100)| ≤
      1 / 2 ^ 1075 + |toRat x| / 2 ^ 55 := by
  cases x with
  | nan => exact False.elim hx
  | inf s => exact False.elim hx
  | fin s m e =>
    obtain ⟨hm, he, -⟩ := hx
    have hlt : m * 5404319552844595 * 2 ^ (e + 1019) < 2 ^ (1074 + 2097) :=
      lt_of_lt_of_le (taxInput_lt hm he) (Nat.pow_le_pow_right (by norm_num) (by omega))
    obtain ⟨k, f, hr⟩ := roundNE_finite_of_lt s hlt
    have herr := roundMag_err_rat 1074 (m * 5404319552844595 * 2 ^ (e + 1019))
    have hN : ((m * 5404319552844595 * 2 ^ (e + 1019) : ℕ) : ℚ) =
        (m : ℚ) * 2 ^ e * 2 ^ 1019 * 5404319552844595 := by
      push_cast
      rw [pow_add]
      ring
    rw [hN] at herr
    rw [calculateTax_fin_eq, hr, toRat_roundNE hr, abs_toRat_fin, toRat_fin]
    have hmag : ((mag (fin s m e) : ℕ) : ℚ) = (m : ℚ) * 2 ^ e := by
      simp [mag]
    rw [hmag, two_pow_1075, two_pow_1074]
    rw [two_pow_1074] at herr
    have ha : (0 : ℚ) ≤ (m : ℚ) * 2 ^ e :=
      mul_nonneg (Nat.cast_nonneg m) (pow_nonneg (by norm_num) e)
    have hP : (0 : ℚ) < 2 ^ 1019 := pow_pos (by norm_num) 1019
    have core := tax_error_core _ ((m : ℚ) * 2 ^ e) ((2 : ℚ) ^ 1019) ha hP herr
    have factor : sgn s * ((roundMag 1074 (m * 5404319552844595 * 2 ^ (e + 1019)) : ℚ) /
          (2 ^ 1019 * 2 ^ 55 * (2 ^ 1019 * 2 ^ 55))) -
        sgn s * ((m : ℚ) * 2 ^ e / (2 ^ 1019 * 2 ^ 55)) * (15 / 100) =
        sgn s * ((roundMag 1074 (m * 5404319552844595 * 2 ^ (e + 1019)) : ℚ) /
          (2 ^ 1019 * 2 ^ 55 * (2 ^ 1019 * 2 ^ 55)) -
          (m : ℚ) * 2 ^ e / (2 ^ 1019 * 2 ^ 55) * (15 / 100)) := by
      ring
    rw [factor, abs_mul, abs_sgn, one_mul]
    exact core

/-! ## Evaluating values -/

theorem toRat_fin_low {e : Nat} (s : Bool) (m : Nat) (h : e ≤ 1074) :
    toRat (fin s m e) = sgn s * ((m : ℚ) / 2 ^ (1074 - e)) := by
  have h2 : (2 : ℚ) ^ 1074 = 2 ^ (1074 - e) * 2 ^ e := by
    rw [← pow_add]; congr 1; omega
  have h3 : (2 : ℚ) ^ e ≠ 0 := pow_ne_zero _ (by norm_num)
  have h4 : (2 : ℚ) ^ (1074 - e) ≠ 0 := pow_ne_zero _ (by norm_num)
  simp only [toRat, sgn]
  rw [h2]
  cases s <;> field_simp <;> ring

theorem toRat_fin_high {e : Nat} (s : Bool) (m : Nat) (h : 1074 ≤ e) :
    toRat (fin s m e) = sgn s * ((m : ℚ) * 2 ^ (e - 1074)) := by
  have h2 : (2 : ℚ) ^ e = 2 ^ (e - 1074) * 2 ^ 1074 := by
    rw [← pow_add]; congr 1; omega
  have h3 : (2 : ℚ) ^ 1074 ≠ 0 := pow_ne_zero _ (by norm_num)
  simp only [toRat, sgn]
  rw [h2]
  cases s <;> field_simp <;> ring

/-! ## Shape of the result -/

theorem calculateTax_isDouble {x : Number} (hx : x.IsDouble) :
    (calculateTax x).IsDouble := by
  cases x with
  | nan => exact False.elim hx
  | inf s => exact False.elim hx
  | fin s m e =>
    obtain ⟨k, f, h1, h2, -⟩ := calculateTax_fin hx
    rw [h1]; exact h2

theorem calculateTax_sign {x : Number} (hx : x.IsDouble) :
    (calculateTax x).sign = x.sign := by
  cases x with
  | nan => exact False.elim hx
  | inf s => exact False.elim hx
  | fin s m e =>
    obtain ⟨k, f, h1, -, -⟩ := calculateTax_fin hx
    rw [h1]; rfl

theorem roundNE_isNumber (neg : Bool) (u n : Nat) : (roundNE neg u n).IsNumber := by
  rcases roundNE_cases neg u n with h | ⟨m, e, h⟩
  · rw [h]; trivial
  · obtain ⟨-, -, h3, h4, h5⟩ := roundNE_eq_fin h
    rw [h]; exact ⟨h3, h4, h5⟩

theorem mul_isNumber (x y : Number) : (Number.mul x y).IsNumber := by
  cases x with
  | nan => cases y <;> trivial
  | inf s =>
    cases y with
    | nan => trivial
    | inf t => trivial
    | fin t k f =>
      simp only [Number.mul]
      split_ifs <;> trivial
  | fin s m e =>
    cases y with
    | nan => trivial
    | inf t =>
      simp only [Number.mul]
      split_ifs <;> trivial
    | fin t k f => exact roundNE_isNumber _ _ _

/-! ## Negative income -/

theorem sign_of_toRat_neg {x : Number} (h : toRat x < 0) : x.sign = true := by
  cases x with
  | nan => simp [toRat] at h
  | inf s => simp [toRat] at h
  | fin s m e =>
    cases s with
    | true => rfl
    | false =>
      exfalso
      have : (0 : ℚ) ≤ toRat (fin false m e) := by
        simp only [toRat, Bool.false_eq_true, if_false, one_mul]
        positivity
      linarith

theorem two_pow_1075_eq : (2 : ℚ) ^ 1075 = 2 ^ 1072 * 8 := by
  have h : (1075 : ℕ) = 1072 + 3 := by norm_num
  rw [h, pow_add]
  norm_num

/-- A negative income of at least four subnormal units has a non-zero
(negative) tax: rounding cannot bring it to zero. -/
theorem calculateTax_neg_of_le {x : Number} (hx : x.IsDouble)
    (h : toRat x ≤ -(1 / 2 ^ 1072)) : toRat (calculateTax x) < 0 := by
  have herr := calculateTax_error x hx
  have hd : (0 : ℚ) < 1 / 2 ^ 1072 := by positivity
  have hneg : toRat x < 0 := by linarith
  rw [abs_of_neg hneg, two_pow_1075_eq, abs_le] at herr
  obtain ⟨-, hr⟩ := herr
  have e : (1 : ℚ) / (2 ^ 1072 * 8) = 1 / 2 ^ 1072 / 8 := by
    rw [div_div]
  rw [e] at hr
  generalize (1 : ℚ) / 2 ^ 1072 = d at *
  generalize toRat x = v at *
  generalize toRat (calculateTax x) = t at *
  norm_num at hr
  linarith

/-! ## Order -/

theorem roundMag_zero (u : Nat) : roundMag u 0 = 0 := by
  unfold roundMag
  have h := nearestEven_mul_pow (ulpExp u 0) 0
  rw [Nat.zero_mul] at h
  rw [h, Nat.zero_mul]

theorem taxMag_zero : taxMag 0 = 0 := by
  unfold taxMag
  rw [Nat.zero_mul, roundMag_zero]

theorem taxMag_mono {a b : Nat} (h : a ≤ b) : taxMag a ≤ taxMag b :=
  roundMag_mono 1074 (Nat.mul_le_mul_right _ h)

theorem taxInput_eq (m e : Nat) :
    m * 5404319552844595 * 2 ^ (e + 1019) = m * 2 ^ e * (5404319552844595 * 2 ^ 1019) := by
  rw [pow_add]
  ring

/-- The value of the tax of a finite double. -/
theorem toRat_calculateTax_fin {s : Bool} {m e : Nat} (h : IsDouble (fin s m e)) :
    toRat (calculateTax (fin s m e)) =
      sgn s * ((taxMag (m * 2 ^ e) : ℚ) / (2 ^ 1074 * 2 ^ 1074)) := by
  obtain ⟨hm, he, -⟩ := h
  have hlt : m * 5404319552844595 * 2 ^ (e + 1019) < 2 ^ (1074 + 2097) :=
    lt_of_lt_of_le (taxInput_lt hm he) (Nat.pow_le_pow_right (by norm_num) (by omega))
  obtain ⟨k, f, hr⟩ := roundNE_finite_of_lt s hlt
  rw [calculateTax_fin_eq, hr, toRat_roundNE hr, taxInput_eq]
  rfl

/-- Extending a monotone map of magnitudes that fixes zero to signed values
keeps it monotone. -/
theorem signed_mono (g : Nat → Nat) (hg : ∀ a b, a ≤ b → g a ≤ g b) (h0 : g 0 = 0)
    (D E : ℚ) (hD : 0 < D) (hE : 0 < E) (s t : Bool) (a b : Nat)
    (h : sgn s * ((a : ℚ) / D) ≤ sgn t * ((b : ℚ) / D)) :
    sgn s * ((g a : ℚ) / E) ≤ sgn t * ((g b : ℚ) / E) := by
  have ha : (0 : ℚ) ≤ (a : ℚ) / D := by positivity
  have hb : (0 : ℚ) ≤ (b : ℚ) / D := by positivity
  have hga : (0 : ℚ) ≤ (g a : ℚ) / E := by positivity
  have hgb : (0 : ℚ) ≤ (g b : ℚ) / E := by positivity
  cases s <;> cases t <;> simp only [sgn, Bool.false_eq_true, if_false, if_true] at h ⊢
  · have h1 : (a : ℚ) ≤ b := by
      have := (div_le_div_iff_of_pos_right hD).1 (by linarith : (a : ℚ) / D ≤ (b : ℚ) / D)
      exact this
    have h2 : a ≤ b := by exact_mod_cast h1
    have h3 : (g a : ℚ) ≤ g b := by exact_mod_cast hg a b h2
    have := (div_le_div_iff_of_pos_right hE).2 h3
    linarith
  · have h1 : (a : ℚ) / D = 0 := by linarith
    have h2 : (b : ℚ) / D = 0 := by linarith
    have h3 : (a : ℚ) = 0 := by
      rcases div_eq_zero_iff.1 h1 with h | h
      · exact h
      · exact absurd h (ne_of_gt hD)
    have h4 : (b : ℚ) = 0 := by
      rcases div_eq_zero_iff.1 h2 with h | h
      · exact h
      · exact absurd h (ne_of_gt hD)
    have h5 : a = 0 := by exact_mod_cast h3
    have h6 : b = 0 := by exact_mod_cast h4
    subst h5 h6
    rw [h0]
    simp
  · linarith
  · have h1 : (b : ℚ) ≤ a := by
      have := (div_le_div_iff_of_pos_right hD).1 (by linarith : (b : ℚ) / D ≤ (a : ℚ) / D)
      exact this
    have h2 : b ≤ a := by exact_mod_cast h1
    have h3 : (g b : ℚ) ≤ g a := by exact_mod_cast hg b a h2
    have := (div_le_div_iff_of_pos_right hE).2 h3
    linarith

theorem calculateTax_mono_aux {x y : Number} (hx : x.IsDouble) (hy : y.IsDouble)
    (h : toRat x ≤ toRat y) : toRat (calculateTax x) ≤ toRat (calculateTax y) := by
  cases x with
  | nan => exact False.elim hx
  | inf s => exact False.elim hx
  | fin s m e =>
    cases y with
    | nan => exact False.elim hy
    | inf t => exact False.elim hy
    | fin t k f =>
      rw [toRat_calculateTax_fin hx, toRat_calculateTax_fin hy]
      rw [toRat_fin, toRat_fin] at h
      have hD : (0 : ℚ) < 2 ^ 1074 := pow_pos (by norm_num) 1074
      exact signed_mono taxMag (fun a b => taxMag_mono) taxMag_zero _ _ hD
        (mul_pos hD hD) s t _ _ h

/-! ## Products and sums of finite Numbers -/

theorem sgn_xor (s t : Bool) : sgn (xor s t) = sgn s * sgn t := by
  cases s <;> cases t <;> simp [sgn]

theorem roundNE_zero (neg : Bool) (u : Nat) : roundNE neg u 0 = fin neg 0 0 := by
  have h1 : ulpExp u 0 = u := by
    unfold ulpExp; rw [ilog2_zero]; omega
  have h2 : nearestEven u 0 = 0 := by
    have h := nearestEven_mul_pow u 0
    rwa [Nat.zero_mul] at h
  unfold roundNE
  simp only [h1, h2]
  norm_num

/-- The value of a finite result of `roundNE` is within half a last place of
the exact value. -/
theorem roundNE_err {neg : Bool} {u n : Nat} {s : Bool} {m e : Nat}
    (h : roundNE neg u n = fin s m e) :
    |toRat (fin s m e) - sgn neg * ((n : ℚ) / (2 ^ 1074 * 2 ^ u))| ≤
      1 / (2 ^ 1074 * 2) + (n : ℚ) / (2 ^ 1074 * 2 ^ u) / 2 ^ 53 := by
  have hD : (0 : ℚ) < 2 ^ 1074 * 2 ^ u := by positivity
  have hD1 : (0 : ℚ) < 2 ^ 1074 := by positivity
  have hU : (0 : ℚ) < 2 ^ u := by positivity
  have herr := roundMag_err_rat u n
  rw [toRat_roundNE h, ← mul_sub, abs_mul, abs_sgn, one_mul, ← sub_div, abs_div,
    abs_of_pos hD, div_le_iff₀ hD]
  have e1 : (1 / (2 ^ 1074 * 2) + (n : ℚ) / (2 ^ 1074 * 2 ^ u) / 2 ^ 53) *
      (2 ^ 1074 * 2 ^ u) = 2 ^ u / 2 + (n : ℚ) / 2 ^ 53 := by
    field_simp
    ring
  rw [e1]
  exact herr

/-- For sums (`u = 0`) the error is purely relative. -/
theorem roundNE_err_zero {neg : Bool} {n : Nat} {s : Bool} {m e : Nat}
    (h : roundNE neg 0 n = fin s m e) :
    |toRat (fin s m e) - sgn neg * ((n : ℚ) / 2 ^ 1074)| ≤
      (n : ℚ) / 2 ^ 1074 / 2 ^ 53 := by
  have hD1 : (0 : ℚ) < 2 ^ 1074 := by positivity
  have herr := roundMag_err_rat_zero n
  rw [toRat_roundNE h, pow_zero, mul_one, ← mul_sub, abs_mul, abs_sgn, one_mul, ← sub_div,
    abs_div, abs_of_pos hD1, div_le_iff₀ hD1]
  have e1 : (n : ℚ) / 2 ^ 1074 / 2 ^ 53 * 2 ^ 1074 = (n : ℚ) / 2 ^ 53 := by
    field_simp
    ring
  rw [e1]
  exact herr

theorem mul_fin_eq (s t : Bool) (m e k f : Nat) :
    Number.mul (fin s m e) (fin t k f) = roundNE (xor s t) 1074 (m * k * 2 ^ (e + f)) := by
  simp [Number.mul]

theorem toRat_mul_toRat (s t : Bool) (m e k f : Nat) :
    toRat (fin s m e) * toRat (fin t k f) =
      sgn (xor s t) * (((m * k * 2 ^ (e + f) : ℕ) : ℚ) / (2 ^ 1074 * 2 ^ 1074)) := by
  rw [toRat_fin, toRat_fin, sgn_xor]
  simp only [mag]
  push_cast
  rw [pow_add]
  field_simp
  ring

/-- A finite product is within rounding of the exact product. -/
theorem mul_err {x y : Number} (hx : x.isFinite = true) (hy : y.isFinite = true)
    (h : (Number.mul x y).isFinite = true) :
    |toRat (Number.mul x y) - toRat x * toRat y| ≤
      1 / (2 ^ 1074 * 2) + |toRat x * toRat y| / 2 ^ 53 := by
  cases x with
  | nan => simp [isFinite] at hx
  | inf s => simp [isFinite] at hx
  | fin s m e =>
    cases y with
    | nan => simp [isFinite] at hy
    | inf t => simp [isFinite] at hy
    | fin t k f =>
      rw [mul_fin_eq] at h ⊢
      rcases roundNE_cases (xor s t) 1074 (m * k * 2 ^ (e + f)) with h1 | ⟨a, b, h1⟩
      · rw [h1] at h; simp [isFinite] at h
      · have herr := roundNE_err h1
        have e1 : |sgn (xor s t) * (((m * k * 2 ^ (e + f) : ℕ) : ℚ) / (2 ^ 1074 * 2 ^ 1074))| =
            ((m * k * 2 ^ (e + f) : ℕ) : ℚ) / (2 ^ 1074 * 2 ^ 1074) := by
          rw [abs_mul, abs_sgn, one_mul, abs_of_nonneg]
          positivity
        rw [h1, toRat_mul_toRat, e1]
        exact herr

theorem sgn_of_ne {s t : Bool} (h : ¬ s = t) : sgn t = - sgn s := by
  cases s <;> cases t <;> simp [sgn] at h ⊢

/-- A finite sum is the rounding of the exact sum, taken with its sign. -/
theorem add_fin_spec (s t : Bool) (m e k f : Nat) :
    ∃ neg n, Number.add (fin s m e) (fin t k f) = roundNE neg 0 n ∧
      toRat (fin s m e) + toRat (fin t k f) = sgn neg * ((n : ℚ) / 2 ^ 1074) ∧
      n ≤ m * 2 ^ e + k * 2 ^ f := by
  have hD : (2 : ℚ) ^ 1074 ≠ 0 := pow_ne_zero _ (by norm_num)
  simp only [Number.add, toRat_fin, mag]
  by_cases hst : s = t
  · subst hst
    refine ⟨s, m * 2 ^ e + k * 2 ^ f, by rw [if_pos rfl], ?_, le_rfl⟩
    push_cast
    ring
  · rw [if_neg hst, sgn_of_ne hst]
    by_cases hab : m * 2 ^ e = k * 2 ^ f
    · refine ⟨false, 0, by rw [if_pos hab, roundNE_zero], ?_, Nat.zero_le _⟩
      have : ((m * 2 ^ e : ℕ) : ℚ) = ((k * 2 ^ f : ℕ) : ℚ) := by rw [hab]
      rw [this]
      simp
    · rw [if_neg hab]
      by_cases hlt : k * 2 ^ f < m * 2 ^ e
      · refine ⟨s, m * 2 ^ e - k * 2 ^ f, by rw [if_pos hlt], ?_, by omega⟩
        rw [Nat.cast_sub (le_of_lt hlt)]
        ring
      · have hle : m * 2 ^ e ≤ k * 2 ^ f := by omega
        refine ⟨t, k * 2 ^ f - m * 2 ^ e, by rw [if_neg hlt], ?_, by omega⟩
        rw [Nat.cast_sub hle, sgn_of_ne hst]
        ring

/-- A finite sum is within relative rounding error of the exact sum. -/
theorem add_err {x y : Number} (hx : x.isFinite = true) (hy : y.isFinite = true)
    (h : (Number.add x y).isFinite = true) :
    (Number.add x y).IsDouble ∧
    |toRat (Number.add x y) - (toRat x + toRat y)| ≤ |toRat x + toRat y| / 2 ^ 53 := by
  cases x with
  | nan => simp [isFinite] at hx
  | inf s => simp [isFinite] at hx
  | fin s m e =>
    cases y with
    | nan => simp [isFinite] at hy
    | inf t => simp [isFinite] at hy
    | fin t k f =>
      obtain ⟨neg, n, h1, h2, -⟩ := add_fin_spec s t m e k f
      rw [h1] at h ⊢
      rcases roundNE_cases neg 0 n with h3 | ⟨a, b, h3⟩
      · rw [h3] at h; simp [isFinite] at h
      · obtain ⟨-, -, d1, d2, d3⟩ := roundNE_eq_fin h3
        have herr := roundNE_err_zero h3
        have e1 : |sgn neg * ((n : ℚ) / 2 ^ 1074)| = (n : ℚ) / 2 ^ 1074 := by
          rw [abs_mul, abs_sgn, one_mul, abs_of_nonneg]
          positivity
        rw [h3, h2, e1]
        exact ⟨⟨d1, d2, d3⟩, herr⟩

/-- Two finite Numbers whose magnitudes sum to less than `2^1023` add without
overflow. -/
theorem add_finite_of_lt {x y : Number} (hx : x.isFinite = true) (hy : y.isFinite = true)
    (h : mag x + mag y < 2 ^ 2097) : (Number.add x y).isFinite = true := by
  cases x with
  | nan => simp [isFinite] at hx
  | inf s => simp [isFinite] at hx
  | fin s m e =>
    cases y with
    | nan => simp [isFinite] at hy
    | inf t => simp [isFinite] at hy
    | fin t k f =>
      obtain ⟨neg, n, h1, -, h3⟩ := add_fin_spec s t m e k f
      simp only [mag] at h
      have hn : n < 2 ^ (0 + 2097) := by
        rw [Nat.zero_add]; omega
      obtain ⟨a, b, h4⟩ := roundNE_finite_of_lt neg hn
      rw [h1, h4]
      rfl

/-! ## The size of the tax -/

theorem mag_lt_of_isDouble {x : Number} (hx : x.IsDouble) : mag x < 2 ^ 53 * 2 ^ 2045 := by
  cases x with
  | nan => exact False.elim hx
  | inf s => exact False.elim hx
  | fin s m e =>
    obtain ⟨hm, he, -⟩ := hx
    simp only [mag]
    exact Nat.mul_lt_mul_of_lt_of_le hm (Nat.pow_le_pow_right (by norm_num) he)
      (Nat.two_pow_pos _)

theorem isFinite_of_isDouble {x : Number} (hx : x.IsDouble) : x.isFinite = true := by
  cases x with
  | nan => exact False.elim hx
  | inf s => exact False.elim hx
  | fin s m e => rfl

/-- The magnitude of the tax of a finite double, in units of `2^-2148`. -/
theorem mag_calculateTax {x : Number} (hx : x.IsDouble) :
    mag (calculateTax x) * 2 ^ 1074 = taxMag (mag x) := by
  cases x with
  | nan => exact False.elim hx
  | inf s => exact False.elim hx
  | fin s m e =>
    obtain ⟨k, f, h1, -, h3⟩ := calculateTax_fin hx
    rw [h1]
    simp only [mag, taxMag]
    rw [← taxInput_eq, ← h3, pow_add]
    ring

theorem rate_le_pow : 5404319552844595 * 2 ^ 1019 ≤ 2 ^ 1074 := by
  have h : (1074 : ℕ) = 55 + 1019 := by norm_num
  rw [h, pow_add]
  exact Nat.mul_le_mul_right _ (by norm_num)

theorem le_of_mul_pow_le {a b D : Nat} (hD : 0 < D) (h : a * D ≤ b * D) : a ≤ b :=
  Nat.le_of_mul_le_mul_right h hD

/-- The rounded product with the rate is at most the income. -/
theorem taxMag_le {m e : Nat} (hm : m < 2 ^ 53) (hn : e = 0 ∨ 2 ^ 52 ≤ m) :
    taxMag (m * 2 ^ e) ≤ m * 2 ^ e * 2 ^ 1074 := by
  have h1 : taxMag (m * 2 ^ e) ≤ roundMag 1074 (m * 2 ^ (e + 1074)) := by
    unfold taxMag
    apply roundMag_mono
    have h2 : m * 2 ^ (e + 1074) = m * 2 ^ e * 2 ^ 1074 := by
      rw [pow_add 2 e 1074, Nat.mul_assoc]
    rw [h2]
    exact Nat.mul_le_mul_left _ rate_le_pow
  rw [roundMag_of_double 1074 hm hn] at h1
  have h2 : m * 2 ^ (e + 1074) = m * 2 ^ e * 2 ^ 1074 := by
    rw [pow_add 2 e 1074, Nat.mul_assoc]
  rw [h2] at h1
  exact h1

/-- The tax of a finite double is at most the income in magnitude. -/
theorem mag_calculateTax_le {x : Number} (hx : x.IsDouble) :
    mag (calculateTax x) ≤ mag x := by
  have h := mag_calculateTax hx
  cases x with
  | nan => exact False.elim hx
  | inf s => exact False.elim hx
  | fin s m e =>
    obtain ⟨hm, -, hn⟩ := hx
    have h1 := taxMag_le hm hn
    have h2 : mag (fin s m e) = m * 2 ^ e := rfl
    rw [h2] at h ⊢
    rw [← h] at h1
    exact le_of_mul_pow_le (Nat.two_pow_pos 1074) h1

theorem taxMag_le_bound {a : Nat} (ha : a < 2 ^ 53 * 2 ^ 2045) :
    taxMag a ≤ 3 * 2 ^ 51 * 2 ^ 2043 * 2 ^ 1074 := by
  have h1 : a * (5404319552844595 * 2 ^ 1019) ≤ 3 * 2 ^ 51 * 2 ^ (2043 + 1074) := by
    have e1 : 3 * 2 ^ 51 * 2 ^ (2043 + 1074) = 2 ^ 53 * 2 ^ 2045 * (3 * 2 ^ 51 * 2 ^ 1019) := by
      have h3117 : (2043 + 1074 : ℕ) = 53 + 2045 + 1019 := by norm_num
      rw [h3117, pow_add, pow_add]
      ring
    rw [e1]
    exact Nat.mul_le_mul (le_of_lt ha) (Nat.mul_le_mul_right _ (by norm_num))
  have h2 := roundMag_mono 1074 h1
  rw [roundMag_of_double 1074 (by norm_num) (Or.inr (by norm_num))] at h2
  have h3 : 3 * 2 ^ 51 * 2 ^ (2043 + 1074) = 3 * 2 ^ 51 * 2 ^ 2043 * 2 ^ 1074 := by
    rw [pow_add 2 2043 1074]
    ring
  rw [h3] at h2
  exact h2

/-- The tax of a finite double is at most `0.75 * 2^1022` in magnitude. -/
theorem mag_calculateTax_lt {x : Number} (hx : x.IsDouble) :
    mag (calculateTax x) ≤ 3 * 2 ^ 51 * 2 ^ 2043 := by
  have h := mag_calculateTax hx
  have h1 := taxMag_le_bound (mag_lt_of_isDouble hx)
  rw [← h] at h1
  have hD : 0 < 2 ^ 1074 := Nat.two_pow_pos 1074
  generalize 2 ^ 1074 = D at h1 hD
  exact le_of_mul_pow_le hD h1

/-- Rounding a smaller magnitude does not overflow if rounding a larger one
does not. -/
theorem roundNE_finite_mono {neg neg1 : Bool} {u n n1 : Nat} (hle : n1 ≤ n)
    (h : (roundNE neg u n).isFinite = true) : (roundNE neg1 u n1).isFinite = true := by
  rcases roundNE_cases neg1 u n1 with h1 | ⟨a, b, h1⟩
  · exfalso
    have h2 := (roundNE_eq_inf_iff neg1 u n1).1 h1
    have h3 := (roundNE_eq_inf_iff neg u n).2 (le_trans h2 (roundMag_mono u hle))
    rw [h3] at h
    simp [isFinite] at h
  · rw [h1]; rfl

/-! ## Accumulated rounding error -/

/-- The error computation behind additivity: `S` is the rounded sum of the
incomes, `T*` the taxes, `A` the rounded sum of the taxes and `d` the
underflow error of one multiplication. -/
theorem additive_core (X Y S TX TY TS A d : ℚ) (hd : 0 ≤ d)
    (h1 : |S - (X + Y)| ≤ |X + Y| / 2 ^ 53)
    (h2 : |TS - S * (15 / 100)| ≤ d + |S| / 2 ^ 55)
    (h3 : |TX - X * (15 / 100)| ≤ d + |X| / 2 ^ 55)
    (h4 : |TY - Y * (15 / 100)| ≤ d + |Y| / 2 ^ 55)
    (h5 : |A - (TX + TY)| ≤ |TX + TY| / 2 ^ 53) :
    |TS - A| ≤ 4 * d + (|X| + |Y|) / 2 ^ 53 := by
  have aX := abs_nonneg X
  have aY := abs_nonneg Y
  have b1 : |X + Y| ≤ |X| + |Y| := abs_add X Y
  have b0 := abs_nonneg (X + Y)
  rw [abs_le] at h1 h2 h3 h4 h5
  obtain ⟨h1l, h1r⟩ := h1
  obtain ⟨h2l, h2r⟩ := h2
  obtain ⟨h3l, h3r⟩ := h3
  obtain ⟨h4l, h4r⟩ := h4
  obtain ⟨h5l, h5r⟩ := h5
  have x1 := le_abs_self X
  have x2 := neg_abs_le X
  have y1 := le_abs_self Y
  have y2 := neg_abs_le Y
  have s1 := le_abs_self (X + Y)
  have s2 := neg_abs_le (X + Y)
  have b2 : |S| ≤ (|X| + |Y|) + (|X| + |Y|) / 2 ^ 53 := by
    rw [abs_le]
    constructor <;> norm_num at h1l h1r ⊢ <;> linarith
  have b3 : |TX + TY| ≤ (|X| + |Y|) * (15 / 100) + 2 * d + (|X| + |Y|) / 2 ^ 55 := by
    rw [abs_le]
    constructor <;> norm_num at h3l h3r h4l h4r ⊢ <;> linarith
  have b4 := abs_nonneg S
  have b5 := abs_nonneg (TX + TY)
  rw [abs_le]
  constructor <;> norm_num at * <;> linarith

/-- The error computation behind scaling: `P` is the rounded product `k * x`,
`B` the rounded product of `k` with the tax, and `d` the underflow error of
one multiplication. -/
theorem scaling_core (K X P TP TX B d : ℚ) (hd1 : d ≤ 1 / 2 ^ 60)
    (hK : |K| * d ≤ 1 / 2 ^ 51)
    (h1 : |P - K * X| ≤ d + |K * X| / 2 ^ 53)
    (h2 : |TP - P * (15 / 100)| ≤ d + |P| / 2 ^ 55)
    (h3 : |TX - X * (15 / 100)| ≤ d + |X| / 2 ^ 55)
    (h4 : |B - K * TX| ≤ d + |K * TX| / 2 ^ 53) :
    |TP - B| ≤ 1 / 2 ^ 50 + |K * X| / 2 ^ 53 := by
  have c1 : |K * TX - K * X * (15 / 100)| ≤ 1 / 2 ^ 51 + |K * X| / 2 ^ 55 := by
    have e : K * TX - K * X * (15 / 100) = K * (TX - X * (15 / 100)) := by ring
    rw [e, abs_mul]
    calc |K| * |TX - X * (15 / 100)| ≤ |K| * (d + |X| / 2 ^ 55) :=
          mul_le_mul_of_nonneg_left h3 (abs_nonneg K)
      _ = |K| * d + |K * X| / 2 ^ 55 := by rw [abs_mul]; ring
      _ ≤ 1 / 2 ^ 51 + |K * X| / 2 ^ 55 := by linarith
  generalize K * TX = Z at *
  generalize K * X = Q at *
  have aQ := abs_nonneg Q
  rw [abs_le] at h1 h2 h4 c1
  obtain ⟨h1l, h1r⟩ := h1
  obtain ⟨h2l, h2r⟩ := h2
  obtain ⟨h4l, h4r⟩ := h4
  obtain ⟨c1l, c1r⟩ := c1
  have q1 := le_abs_self Q
  have q2 := neg_abs_le Q
  have b2 : |P| ≤ |Q| + |Q| / 2 ^ 53 + d := by
    rw [abs_le]
    constructor <;> norm_num at h1l h1r ⊢ <;> linarith
  have b3 : |Z| ≤ |Q| * (15 / 100) + 1 / 2 ^ 51 + |Q| / 2 ^ 55 := by
    rw [abs_le]
    constructor <;> norm_num at c1l c1r ⊢ <;> linarith
  have b4 := abs_nonneg P
  have b5 := abs_nonneg Z
  clear h3 hK
  rw [abs_le]
  constructor <;> norm_num at * <;> linarith

theorem underflow_nonneg : (0 : ℚ) ≤ 1 / 2 ^ 1075 :=
  le_of_lt (one_div_pos.2 (pow_pos (by norm_num) 1075))

theorem underflow_le : (1 : ℚ) / 2 ^ 1075 ≤ 1 / 2 ^ 60 :=
  one_div_le_one_div_of_le (by positivity) (pow_le_pow_right₀ (by norm_num) (by norm_num))

/-- Up to `2^23` the additive error bound is within `1e-9`. -/
theorem additive_bound_small (w : ℚ) (hw : w ≤ 2 ^ 23) :
    4 * (1 / 2 ^ 1075) + w / 2 ^ 53 ≤ 1 / 10 ^ 9 := by
  have h := underflow_le
  generalize (1 : ℚ) / 2 ^ 1075 = d at *
  norm_num at h hw ⊢
  linarith

/-- Up to `2^23` the scaling error bound is within `1e-9`. -/
theorem scaling_bound_small (v : ℚ) (hv : v ≤ 2 ^ 23) :
    1 / 2 ^ 50 + v / 2 ^ 53 ≤ 1 / 10 ^ 9 := by
  norm_num at hv ⊢
  linarith

/-! ## Finiteness of the compared results -/

theorem isDouble_of_isNumber {x : Number} (h : x.IsNumber) (hf : x.isFinite = true) :
    x.IsDouble := by
  cases x with
  | nan => simp [isFinite] at hf
  | inf s => simp [isFinite] at hf
  | fin s m e => exact h

/-- The taxes of two finite doubles add without overflow. -/
theorem add_calculateTax_finite {x y : Number} (hx : x.IsDouble) (hy : y.IsDouble) :
    (Number.add (calculateTax x) (calculateTax y)).isFinite = true := by
  apply add_finite_of_lt (isFinite_of_isDouble (calculateTax_isDouble hx))
    (isFinite_of_isDouble (calculateTax_isDouble hy))
  have h1 := mag_calculateTax_lt hx
  have h2 := mag_calculateTax_lt hy
  have e1 : 3 * 2 ^ 51 * 2 ^ 2043 = 3 * 2 ^ 2094 := by
    have h : (2094 : ℕ) = 51 + 2043 := by norm_num
    rw [h, pow_add, Nat.mul_assoc]
  have e2 : 2 ^ 2097 = 8 * 2 ^ 2094 := by
    have h : (2097 : ℕ) = 2094 + 3 := by norm_num
    rw [h, pow_add]
    ring
  rw [e1] at h1 h2
  rw [e2]
  have hpos : 0 < 2 ^ 2094 := Nat.two_pow_pos 2094
  generalize 2 ^ 2094 = G at *
  omega

/-- Multiplying by a factor of smaller magnitude does not overflow if
multiplying by the larger one does not. -/
theorem mul_finite_of_mag_le {k x y : Number} (hk : k.isFinite = true)
    (hx : x.isFinite = true) (hy : y.isFinite = true) (hle : mag y ≤ mag x)
    (h : (Number.mul k x).isFinite = true) : (Number.mul k y).isFinite = true := by
  cases k with
  | nan => simp [isFinite] at hk
  | inf s => simp [isFinite] at hk
  | fin s m e =>
    cases x with
    | nan => simp [isFinite] at hx
    | inf t => simp [isFinite] at hx
    | fin t a b =>
      cases y with
      | nan => simp [isFinite] at hy
      | inf r => simp [isFinite] at hy
      | fin r c d =>
        rw [mul_fin_eq] at h ⊢
        simp only [mag] at hle
        refine roundNE_finite_mono ?_ h
        have e1 : m * c * 2 ^ (e + d) = m * 2 ^ e * (c * 2 ^ d) := by
          rw [pow_add]; ring
        have e2 : m * a * 2 ^ (e + b) = m * 2 ^ e * (a * 2 ^ b) := by
          rw [pow_add]; ring
        rw [e1, e2]
        exact Nat.mul_le_mul_left _ hle

theorem two_pow_1075_succ : (2 : ℚ) ^ 1075 = 2 ^ 1074 * 2 := by
  have h : (1075 : ℕ) = 1074 + 1 := by norm_num
  rw [h, pow_succ]

/-- A finite double times the underflow error of one multiplication is at
most `2^-51`. -/
theorem abs_toRat_mul_underflow {k : Number} (hk : k.IsDouble) :
    |toRat k| * (1 / 2 ^ 1075) ≤ 1 / 2 ^ 51 := by
  have hlt := mag_lt_of_isDouble hk
  cases k with
  | nan => exact False.elim hk
  | inf s => exact False.elim hk
  | fin s m e =>
    rw [abs_toRat_fin]
    have h1 : ((mag (fin s m e) : ℕ) : ℚ) ≤ 2 ^ 53 * 2 ^ 2045 := by
      exact_mod_cast le_of_lt hlt
    have e1 : (2 : ℚ) ^ 2045 = 2 ^ 1074 * 2 ^ 971 := by
      have h : (2045 : ℕ) = 1074 + 971 := by norm_num
      rw [h, pow_add]
    have e2 : (2 : ℚ) ^ 1075 = 2 ^ 971 * 2 ^ 104 := by
      have h : (1075 : ℕ) = 971 + 104 := by norm_num
      rw [h, pow_add]
    rw [e1] at h1
    rw [e2]
    have hD : (0 : ℚ) < 2 ^ 1074 := pow_pos (by norm_num) 1074
    have hE : (0 : ℚ) < 2 ^ 971 := pow_pos (by norm_num) 971
    generalize ((mag (fin s m e) : ℕ) : ℚ) = a at *
    generalize (2 : ℚ) ^ 1074 = D at *
    generalize (2 : ℚ) ^ 971 = E at *
    have e3 : a / D * (1 / (E * 2 ^ 104)) = a / (D * E) / 2 ^ 104 := by
      field_simp
      left
      ring
    have h2 : a / (D * E) ≤ 2 ^ 53 := by
      rw [div_le_iff₀ (mul_pos hD hE)]
      linarith
    rw [e3]
    have h3 : a / (D * E) / 2 ^ 104 ≤ 2 ^ 53 / 2 ^ 104 :=
      div_le_div_of_nonneg_right h2 (by norm_num)
    have h4 : (2 : ℚ) ^ 53 / 2 ^ 104 = 1 / 2 ^ 51 := by norm_num
    rw [h4] at h3
    exact h3

/-! ## Bounds and symmetry -/

/-- The value of a finite double of non-negative value is its magnitude. -/
theorem toRat_eq_mag_of_nonneg {x : Number} (hx : x.IsDouble) (h0 : 0 ≤ toRat x) :
    toRat x = (mag x : ℚ) / 2 ^ 1074 := by
  cases x with
  | nan => exact False.elim hx
  | inf s => exact False.elim hx
  | fin s m e =>
    have habs := abs_toRat_fin s m e
    rw [abs_of_nonneg h0] at habs
    exact habs

/-- The tax of a finite double of non-negative value has non-negative value,
equal to its magnitude. -/
theorem toRat_calculateTax_of_nonneg {x : Number} (hx : x.IsDouble) (h0 : 0 ≤ toRat x) :
    toRat (calculateTax x) = (mag (calculateTax x) : ℚ) / 2 ^ 1074 := by
  have hle := mag_calculateTax_le hx
  cases x with
  | nan => exact False.elim hx
  | inf s => exact False.elim hx
  | fin s m e =>
    obtain ⟨k, f, h1, -, -⟩ := calculateTax_fin hx
    rw [h1] at hle ⊢
    cases s with
    | false =>
      rw [toRat_fin]
      simp [sgn]
    | true =>
      have hx0 : ((mag (fin true m e) : ℕ) : ℚ) / 2 ^ 1074 ≤ 0 := by
        rw [toRat_fin] at h0
        simp only [sgn, if_true] at h0
        linarith
      have hD : (0 : ℚ) < 2 ^ 1074 := pow_pos (by norm_num) 1074
      have hq : ((mag (fin true m e) : ℕ) : ℚ) ≤ 0 := by
        by_contra hc
        push_neg at hc
        have := div_pos hc hD
        linarith
      have hz : mag (fin true m e) = 0 := by
        have : ((mag (fin true m e) : ℕ) : ℚ) = 0 :=
          le_antisymm hq (Nat.cast_nonneg _)
        exact_mod_cast this
      have hm0 : mag (fin true k f) = 0 := by
        have h2 : mag (fin true k f) ≤ mag (fin true m e) := hle
        omega
      rw [toRat_fin, hm0]
      simp

theorem neg_roundNE (s : Bool) (u n : Nat) :
    Number.neg (roundNE s u n) = roundNE (!s) u n := by
  unfold roundNE
  simp only
  split_ifs <;> rfl

/-- Negating the income negates the tax, for every Number. -/
theorem calculateTax_neg_eq (x : Number) :
    calculateTax (Number.neg x) = Number.neg (calculateTax x) := by
  cases x with
  | nan => simp [calculateTax, Number.mul, Number.neg, rate]
  | inf s => simp [calculateTax, Number.mul, Number.neg, rate]
  | fin s m e =>
    have h1 : Number.neg (fin s m e) = fin (!s) m e := rfl
    rw [h1, calculateTax_fin_eq, calculateTax_fin_eq, neg_roundNE]

theorem toRat_neg (x : Number) : toRat (Number.neg x) = - toRat x := by
  cases x with
  | nan => simp [Number.neg, toRat]
  | inf s => simp [Number.neg, toRat]
  | fin s m e =>
    cases s <;> simp [Number.neg, toRat]

/-! ## The absolute tolerance on moderate incomes -/

/-- Below `2^(j+53)` input units the last place of the result weighs at most
`2^j`, so the rounded magnitude is within `2^j / 2` of the input. -/
theorem roundMag_err_of_lt {u n j : Nat} (hu : u ≤ j) (h : n < 2 ^ (j + 53)) :
    2 * roundMag u n ≤ 2 * n + 2 ^ j ∧ 2 * n ≤ 2 * roundMag u n + 2 ^ j := by
  have hsh : ulpExp u n ≤ j := by
    have hlog : ilog2 n < j + 53 := by
      by_cases h0 : n = 0
      · subst h0; rw [ilog2_zero]; omega
      · exact (Nat.pow_lt_pow_iff_right (by norm_num : 1 < 2)).1
          (lt_of_le_of_lt (pow_ilog2_le h0) h)
    unfold ulpExp
    omega
  have hpow : 2 ^ ulpExp u n ≤ 2 ^ j := Nat.pow_le_pow_right (by norm_num) hsh
  obtain ⟨h1, h2, -⟩ := roundMag_err u n
  constructor <;> omega

theorem two_pow_2118 : (2 : ℚ) ^ 2118 = 2 ^ 1019 * 2 ^ 1019 * 2 ^ 80 := by
  have h : (2118 : ℕ) = 1019 + 1019 + 80 := by norm_num
  rw [h, pow_add, pow_add]

/-- The error computation for incomes up to 55924053: `a` is the income in
subnormal units, `P = 2^1019` and `R` the rounded product, which is within
half of `2^2118` units of the exact product. -/
theorem tax_error_small_core (R a P : ℚ) (ha : 0 ≤ a) (hP : 0 < P)
    (hA : a ≤ 55924053 * (P * 2 ^ 55))
    (h : |R - a * P * 5404319552844595| ≤ P * P * 2 ^ 80 / 2) :
    |R / (P * 2 ^ 55 * (P * 2 ^ 55)) - a / (P * 2 ^ 55) * (15 / 100)| ≤ 1 / 10 ^ 9 := by
  have hPP : 0 < P * P := mul_pos hP hP
  have hAP : a * P ≤ 55924053 * (P * 2 ^ 55) * P := mul_le_mul_of_nonneg_right hA hP.le
  have hT : 0 ≤ a * P := mul_nonneg ha hP.le
  have key : R / (P * 2 ^ 55 * (P * 2 ^ 55)) - a / (P * 2 ^ 55) * (15 / 100) =
      (R - a * P * 2 ^ 55 * (15 / 100)) / (P * 2 ^ 55 * (P * 2 ^ 55)) := by
    field_simp
    ring
  rw [key, abs_div, abs_of_pos (by positivity : (0 : ℚ) < P * 2 ^ 55 * (P * 2 ^ 55)),
    div_le_iff₀ (by positivity)]
  have e1 : 55924053 * (P * 2 ^ 55) * P = 55924053 * 2 ^ 55 * (P * P) := by ring
  have e2 : (1 : ℚ) / 10 ^ 9 * (P * 2 ^ 55 * (P * 2 ^ 55)) = 2 ^ 110 / 10 ^ 9 * (P * P) := by
    ring
  have e3 : P * P * 2 ^ 80 / 2 = 2 ^ 79 * (P * P) := by ring
  rw [e1] at hAP
  rw [e2]
  rw [e3] at h
  generalize P * P = Q at *
  generalize a * P = T at *
  rw [abs_le] at h ⊢
  obtain ⟨l, r⟩ := h
  norm_num at l r hAP ⊢
  constructor <;> linarith

theorem cast_two_pow (k : Nat) : ((2 ^ k : ℕ) : ℚ) = (2 : ℚ) ^ k := by
  rw [Nat.cast_pow, Nat.cast_ofNat]

/-- For an income of at most `55924053 * 2^1074` subnormal units the rounded
product is within half of `2^2118` units of the exact product. -/
theorem taxMag_err_small {a : Nat} (ha : a ≤ 55924053 * 2 ^ 1074) :
    |(taxMag a : ℚ) - (a : ℚ) * 2 ^ 1019 * 5404319552844595| ≤
      2 ^ 1019 * 2 ^ 1019 * 2 ^ 80 / 2 := by
  have hN : a * (5404319552844595 * 2 ^ 1019) < 2 ^ (2118 + 53) := by
    have h1 : a * (5404319552844595 * 2 ^ 1019) ≤
        55924053 * 2 ^ 1074 * (5404319552844595 * 2 ^ 1019) :=
      Nat.mul_le_mul_right _ ha
    have h2 : 55924053 * 2 ^ 1074 * (5404319552844595 * 2 ^ 1019) =
        55924053 * 5404319552844595 * (2 ^ 1074 * 2 ^ 1019) := by ring
    have h3 : (2 : ℕ) ^ (2118 + 53) = 2 ^ 78 * (2 ^ 1074 * 2 ^ 1019) := by
      have h : (2118 + 53 : ℕ) = 78 + (1074 + 1019) := by norm_num
      rw [h, pow_add, pow_add]
    rw [h2] at h1
    rw [h3]
    have h4 : 55924053 * 5404319552844595 < 2 ^ 78 := by norm_num
    have hG : 0 < 2 ^ 1074 * 2 ^ 1019 := Nat.mul_pos (Nat.two_pow_pos _) (Nat.two_pow_pos _)
    exact lt_of_le_of_lt h1 (Nat.mul_lt_mul_of_lt_of_le h4 le_rfl hG)
  obtain ⟨n1, n2⟩ := roundMag_err_of_lt (by norm_num : 1074 ≤ 2118) hN
  have hK := cast_two_pow 1019
  have hG := cast_two_pow 2118
  rw [two_pow_2118] at hG
  have e : roundMag 1074 (a * (5404319552844595 * 2 ^ 1019)) = taxMag a := rfl
  rw [e] at n1 n2
  generalize taxMag a = R at n1 n2 ⊢
  generalize (2 : ℕ) ^ 1019 = K at n1 n2 hK
  generalize (2 : ℕ) ^ 2118 = G at n1 n2 hG
  have q1 : (2 : ℚ) * R ≤ 2 * ((a : ℚ) * (5404319552844595 * K)) + G := by
    exact_mod_cast n1
  have q2 : (2 : ℚ) * ((a : ℚ) * (5404319552844595 * K)) ≤ 2 * R + G := by
    exact_mod_cast n2
  rw [hK, hG] at q1
  rw [hK, hG] at q2
  rw [abs_le]
  constructor <;> linarith

/-- Up to 55924053 in magnitude the tax of a finite double is within `1e-9`
of 15% of the income. -/
theorem calculateTax_error_small (x : Number) (hx : x.IsDouble)
    (hle : |toRat x| ≤ 55924053) :
    |toRat (calculateTax x) - toRat x * (15 / 100)| ≤ 1 / 10 ^ 9 := by
  cases x with
  | nan => exact False.elim hx
  | inf s => exact False.elim hx
  | fin s m e =>
    have hD : (0 : ℚ) < 2 ^ 1074 := pow_pos (by norm_num) 1074
    have hP : (0 : ℚ) < 2 ^ 1019 := pow_pos (by norm_num) 1019
    rw [abs_toRat_fin, div_le_iff₀ hD] at hle
    have hmag : mag (fin s m e) = m * 2 ^ e := rfl
    rw [hmag] at hle
    have hnat : m * 2 ^ e ≤ 55924053 * 2 ^ 1074 := by
      rw [← cast_two_pow 1074] at hle
      generalize (2 : ℕ) ^ 1074 = D at hle ⊢
      exact_mod_cast hle
    have herr := taxMag_err_small hnat
    rw [toRat_calculateTax_fin hx, toRat_fin, hmag, two_pow_1074]
    rw [two_pow_1074] at hle
    have ha : (0 : ℚ) ≤ ((m * 2 ^ e : ℕ) : ℚ) := Nat.cast_nonneg _
    have core := tax_error_small_core _ _ _ ha hP hle herr
    have factor : sgn s * ((taxMag (m * 2 ^ e) : ℚ) /
          (2 ^ 1019 * 2 ^ 55 * (2 ^ 1019 * 2 ^ 55))) -
        sgn s * (((m * 2 ^ e : ℕ) : ℚ) / (2 ^ 1019 * 2 ^ 55)) * (15 / 100) =
        sgn s * ((taxMag (m * 2 ^ e) : ℚ) / (2 ^ 1019 * 2 ^ 55 * (2 ^ 1019 * 2 ^ 55)) -
          ((m * 2 ^ e : ℕ) : ℚ) / (2 ^ 1019 * 2 ^ 55) * (15 / 100)) := by
      ring
    rw [factor, abs_mul, abs_sgn, one_mul]
    exact core

/-- The bound of 55924053 is tight: at the income 55924057 the tax is more
than `1e-9` away from 15% of the income. -/
theorem calculateTax_error_just_above :
    ¬ |toRat (calculateTax (Number.ofNat 55924057)) -
        toRat (Number.ofNat 55924057) * (15 / 100)| ≤ 1 / 10 ^ 9 := by
  have h1 : Number.ofNat 55924057 = fin false 7505999871082496 1047 := by decide!
  have h2 : calculateTax (fin false 7505999871082496 1047) =
      fin false 4503599922649497 1045 := by decide!
  rw [h1, h2, toRat_fin_low _ _ (by norm_num), toRat_fin_low _ _ (by norm_num)]
  norm_num [sgn, abs_le]

/-! ## Small operands do not overflow -/

theorem lt_of_cast_le_small {n D : Nat} (hD : 0 < D) (h : (n : ℚ) ≤ 2 ^ 23 * (D : ℚ)) :
    n < D * 2 ^ 1023 := by
  have h1 : n ≤ 2 ^ 23 * D := by exact_mod_cast h
  have hE : 2 ^ 23 < 2 ^ 1023 := Nat.pow_lt_pow_right (by norm_num) (by norm_num)
  calc n ≤ 2 ^ 23 * D := h1
    _ < 2 ^ 1023 * D := Nat.mul_lt_mul_of_lt_of_le hE le_rfl hD
    _ = D * 2 ^ 1023 := Nat.mul_comm _ _

/-- Two finite doubles whose magnitudes sum to at most `2^23` add without
overflow. -/
theorem add_finite_of_small {x y : Number} (hx : x.IsDouble) (hy : y.IsDouble)
    (h : |toRat x| + |toRat y| ≤ 2 ^ 23) : (Number.add x y).isFinite = true := by
  apply add_finite_of_lt (isFinite_of_isDouble hx) (isFinite_of_isDouble hy)
  cases x with
  | nan => exact False.elim hx
  | inf s => exact False.elim hx
  | fin s m e =>
    cases y with
    | nan => exact False.elim hy
    | inf t => exact False.elim hy
    | fin t k f =>
      rw [abs_toRat_fin, abs_toRat_fin, ← add_div,
        div_le_iff₀ (pow_pos (by norm_num) 1074), ← cast_two_pow 1074] at h
      have e2097 : (2 : ℕ) ^ 2097 = 2 ^ 1074 * 2 ^ 1023 := by
        have h' : (2097 : ℕ) = 1074 + 1023 := by norm_num
        rw [h', pow_add]
      rw [e2097]
      have hD : 0 < 2 ^ 1074 := Nat.two_pow_pos 1074
      generalize (2 : ℕ) ^ 1074 = D at h hD ⊢
      generalize mag (fin s m e) = a at h ⊢
      generalize mag (fin t k f) = b at h ⊢
      apply lt_of_cast_le_small hD
      push_cast
      exact h

/-- Two finite doubles whose product is at most `2^23` in magnitude multiply
without overflow. -/
theorem mul_finite_of_small {k x : Number} (hk : k.IsDouble) (hx : x.IsDouble)
    (h : |toRat k * toRat x| ≤ 2 ^ 23) : (Number.mul k x).isFinite = true := by
  cases k with
  | nan => exact False.elim hk
  | inf s => exact False.elim hk
  | fin s m e =>
    cases x with
    | nan => exact False.elim hx
    | inf t => exact False.elim hx
    | fin t a b =>
      have hDD : (0 : ℚ) < 2 ^ 1074 * 2 ^ 1074 :=
        mul_pos (pow_pos (by norm_num) 1074) (pow_pos (by norm_num) 1074)
      rw [toRat_mul_toRat, abs_mul, abs_sgn, one_mul,
        abs_of_nonneg (div_nonneg (Nat.cast_nonneg _) hDD.le), div_le_iff₀ hDD,
        ← cast_two_pow 1074] at h
      have hlt : m * a * 2 ^ (e + b) < 2 ^ (1074 + 2097) := by
        have e1 : (2 : ℕ) ^ (1074 + 2097) = 2 ^ 1074 * 2 ^ 1074 * 2 ^ 1023 := by
          have h' : (1074 + 2097 : ℕ) = 1074 + 1074 + 1023 := by norm_num
          rw [h', pow_add, pow_add]
        rw [e1]
        have hD : 0 < 2 ^ 1074 * 2 ^ 1074 :=
          Nat.mul_pos (Nat.two_pow_pos 1074) (Nat.two_pow_pos 1074)
        generalize m * a * 2 ^ (e + b) = n at h ⊢
        have h2 : (n : ℚ) ≤ 2 ^ 23 * ((2 ^ 1074 * 2 ^ 1074 : ℕ) : ℚ) := by
          rw [Nat.cast_mul]
          exact h
        generalize (2 : ℕ) ^ 1074 * 2 ^ 1074 = D at h2 hD ⊢
        exact lt_of_cast_le_small hD h2
      obtain ⟨c, d, hr⟩ := roundNE_finite_of_lt (xor s t) hlt
      rw [mul_fin_eq, hr]
      rfl

/-! ## Evaluation of the call -/

/-- The evaluator does thread the state: an assignment to an outer identifier
that the host accepts leaves the state the host returns. -/
theorem eval_assign_param {σ : Type} (h : Host σ) (arg : Value σ) (x : String) (s s1 : σ)
    (hset : h.setGlobal x arg s = Except.ok s1) :
    eval h arg (Expr.assign x Expr.param) s = (Except.ok arg, s1) := by
  simp only [eval, hset]

/-! ## The rate constant -/

/-- The constant is a canonical double within half a last place (`2^-56`) of
15/100, hence the double that the literal `0.15` denotes. -/
theorem rate_nearest :
    rate.IsDouble ∧ toRat rate = 5404319552844595 / 2 ^ 55 ∧
    |toRat rate - 15 / 100| ≤ 1 / 2 ^ 56 := by
  have h : toRat rate = 5404319552844595 / 2 ^ 55 := by
    unfold rate
    rw [toRat_fin_low _ _ (by norm_num)]
    norm_num [sgn]
  refine ⟨by decide, h, ?_⟩
  rw [h]
  norm_num [abs_le]

/-! ## The claims -/

/-- C1 fails as stated: the income 1000000001 is a finite non-negative double
and its tax differs from 15% of it by more than `1e-9`. -/
theorem calculateTax_tolerance_exceeded :
    (Number.ofNat 1000000001).IsDouble ∧ 0 ≤ toRat (Number.ofNat 1000000001) ∧
    ¬ |toRat (calculateTax (Number.ofNat 1000000001)) -
        toRat (Number.ofNat 1000000001) * (15 / 100)| ≤ 1 / 10 ^ 9 := by
  have h1 : Number.ofNat 1000000001 = fin false 8388608008388608 1051 := by decide!
  have h2 : calculateTax (fin false 8388608008388608 1051) =
      fin false 5033164805033165 1049 := by decide!
  rw [h1, h2, toRat_fin_low _ _ (by norm_num), toRat_fin_low _ _ (by norm_num)]
  refine ⟨by decide, by norm_num [sgn], ?_⟩
  norm_num [sgn, abs_le]

/-- C1 (amended): for every finite non-negative double `x` the tax is exactly
the Number product `x * 0.15`, a finite double; its value differs from 15% of
`x` by at most `1e-9` whenever `x <= 55924053`, and by at most
`2^-1075 + x * 2^-55` whatever the size of `x`. -/
theorem calculateTax_within_tolerance (x : Number) (hx : x.IsDouble)
    (h0 : 0 ≤ toRat x) :
    calculateTax x = Number.mul x rate ∧ (calculateTax x).IsDouble ∧
    (toRat x ≤ 55924053 →
      |toRat (calculateTax x) - toRat x * (15 / 100)| ≤ 1 / 10 ^ 9) ∧
    |toRat (calculateTax x) - toRat x * (15 / 100)| ≤ 1 / 2 ^ 1075 + toRat x / 2 ^ 55 := by
  refine ⟨rfl, calculateTax_isDouble hx, ?_, ?_⟩
  · intro hle
    apply calculateTax_error_small x hx
    rwa [abs_of_nonneg h0]
  · have h := calculateTax_error x hx
    rwa [abs_of_nonneg h0] at h

theorem calculateTax_within_tolerance_witness :
    (Number.ofNat 100).IsDouble ∧ 0 ≤ toRat (Number.ofNat 100) ∧
    toRat (Number.ofNat 100) ≤ 55924053 ∧
    |toRat (calculateTax (Number.ofNat 100)) - toRat (Number.ofNat 100) * (15 / 100)| ≤
      1 / 10 ^ 9 := by
  have h1 : (Number.ofNat 100).IsDouble := by decide!
  have e : Number.ofNat 100 = fin false 7036874417766400 1028 := by decide!
  have h2 : 0 ≤ toRat (Number.ofNat 100) := by
    rw [e, toRat_fin_low _ _ (by norm_num)]
    norm_num [sgn]
  have h3 : toRat (Number.ofNat 100) ≤ 55924053 := by
    rw [e, toRat_fin_low _ _ (by norm_num)]
    norm_num [sgn]
  exact ⟨h1, h2, h3, (calculateTax_within_tolerance _ h1 h2).2.2.1 h3⟩

/-- C2: `calculateTax(100)` is exactly the Number 15 and `calculateTax(1000)`
is exactly the Number 150. -/
theorem calculateTax_hundred_thousand :
    calculateTax (Number.ofNat 100) = Number.ofNat 15 ∧
    calculateTax (Number.ofNat 1000) = Number.ofNat 150 := by
  decide!

/-- C3: `calculateTax(0)` is the Number 0. -/
theorem calculateTax_zero : calculateTax (Number.ofNat 0) = Number.ofNat 0 := by
  decide!

/-- C4 fails as stated: for the finite incomes 1000000001 and 1 both sides are
finite doubles that differ by more than `1e-9`, and for the largest finite
double taken twice the left side is `+Infinity` while the right side is a
finite double. -/
theorem calculateTax_additive_fails :
    (Number.ofNat 1000000001).IsDouble ∧ (Number.ofNat 1).IsDouble ∧
    ¬ |toRat (calculateTax (Number.add (Number.ofNat 1000000001) (Number.ofNat 1))) -
        toRat (Number.add (calculateTax (Number.ofNat 1000000001))
          (calculateTax (Number.ofNat 1)))| ≤ 1 / 10 ^ 9 ∧
    maxValue.IsDouble ∧ calculateTax (Number.add maxValue maxValue) = inf false ∧
    (Number.add (calculateTax maxValue) (calculateTax maxValue)).IsDouble := by
  have h1 : calculateTax (Number.add (Number.ofNat 1000000001) (Number.ofNat 1)) =
      fin false 5033164810066329 1049 := by decide!
  have h2 : Number.add (calculateTax (Number.ofNat 1000000001)) (calculateTax (Number.ofNat 1)) =
      fin false 5033164810066330 1049 := by decide!
  refine ⟨by decide!, by decide!, ?_, by decide!, by decide!, by decide!⟩
  rw [h1, h2, toRat_fin_low _ _ (by norm_num), toRat_fin_low _ _ (by norm_num)]
  norm_num [sgn, abs_le]

/-- C4 (amended): in exact arithmetic `calculateTax` is additive. On finite
doubles `x`, `y` with `|x| + |y| <= 2^23` the sum does not overflow and
`calculateTax(x + y)` and `calculateTax(x) + calculateTax(y)` differ by at most
`1e-9`; whenever `x + y` does not overflow the two are finite doubles that
differ by at most `2^-1073 + (|x| + |y|) * 2^-53`. -/
theorem calculateTax_additive (x y : Number) (hx : x.IsDouble) (hy : y.IsDouble) :
    (∀ a b : ℚ, calculateTaxExact (a + b) = calculateTaxExact a + calculateTaxExact b) ∧
    (|toRat x| + |toRat y| ≤ 2 ^ 23 →
      (Number.add x y).isFinite = true ∧
      |toRat (calculateTax (Number.add x y)) -
          toRat (Number.add (calculateTax x) (calculateTax y))| ≤ 1 / 10 ^ 9) ∧
    ((Number.add x y).isFinite = true →
      (calculateTax (Number.add x y)).IsDouble ∧
      (Number.add (calculateTax x) (calculateTax y)).IsDouble ∧
      |toRat (calculateTax (Number.add x y)) -
          toRat (Number.add (calculateTax x) (calculateTax y))| ≤
        4 * (1 / 2 ^ 1075) + (|toRat x| + |toRat y|) / 2 ^ 53) := by
  have main : (Number.add x y).isFinite = true →
      (calculateTax (Number.add x y)).IsDouble ∧
      (Number.add (calculateTax x) (calculateTax y)).IsDouble ∧
      |toRat (calculateTax (Number.add x y)) -
          toRat (Number.add (calculateTax x) (calculateTax y))| ≤
        4 * (1 / 2 ^ 1075) + (|toRat x| + |toRat y|) / 2 ^ 53 := by
    intro hxy
    obtain ⟨hS, h1⟩ := add_err (isFinite_of_isDouble hx) (isFinite_of_isDouble hy) hxy
    have h2 := calculateTax_error _ hS
    have h3 := calculateTax_error x hx
    have h4 := calculateTax_error y hy
    obtain ⟨hA, h5⟩ := add_err (isFinite_of_isDouble (calculateTax_isDouble hx))
      (isFinite_of_isDouble (calculateTax_isDouble hy)) (add_calculateTax_finite hx hy)
    exact ⟨calculateTax_isDouble hS, hA,
      additive_core _ _ _ _ _ _ _ _ underflow_nonneg h1 h2 h3 h4 h5⟩
  refine ⟨?_, ?_, main⟩
  · intro a b
    unfold calculateTaxExact
    ring
  · intro hsmall
    have hfin := add_finite_of_small hx hy hsmall
    exact ⟨hfin, le_trans (main hfin).2.2 (additive_bound_small _ hsmall)⟩

theorem calculateTax_additive_witness :
    (Number.ofNat 100).IsDouble ∧ (Number.ofNat 1000).IsDouble ∧
    |toRat (Number.ofNat 100)| + |toRat (Number.ofNat 1000)| ≤ 2 ^ 23 ∧
    (Number.add (Number.ofNat 100) (Number.ofNat 1000)).isFinite = true ∧
    |toRat (calculateTax (Number.add (Number.ofNat 100) (Number.ofNat 1000))) -
        toRat (Number.add (calculateTax (Number.ofNat 100)) (calculateTax (Number.ofNat 1000)))| ≤
      1 / 10 ^ 9 := by
  have h1 : (Number.ofNat 100).IsDouble := by decide!
  have h2 : (Number.ofNat 1000).IsDouble := by decide!
  have h3 : |toRat (Number.ofNat 100)| + |toRat (Number.ofNat 1000)| ≤ 2 ^ 23 := by
    have e1 : Number.ofNat 100 = fin false 7036874417766400 1028 := by decide!
    have e2 : Number.ofNat 1000 = fin false 8796093022208000 1031 := by decide!
    rw [e1, e2, toRat_fin_low _ _ (by norm_num), toRat_fin_low _ _ (by norm_num)]
    norm_num [sgn]
  exact ⟨h1, h2, h3, (calculateTax_additive _ _ h1 h2).2.1 h3⟩

/-- C5 fails as stated: for the factor 3 and the income 1000000001 both sides
are finite doubles that differ by more than `1e-9`, and for the factor 2 and
the largest finite double the left side is `+Infinity` while the right side is
a finite double. -/
theorem calculateTax_scaling_fails :
    (Number.ofNat 3).IsDouble ∧ (Number.ofNat 1000000001).IsDouble ∧
    ¬ |toRat (calculateTax (Number.mul (Number.ofNat 3) (Number.ofNat 1000000001))) -
        toRat (Number.mul (Number.ofNat 3) (calculateTax (Number.ofNat 1000000001)))| ≤
        1 / 10 ^ 9 ∧
    (Number.ofNat 2).IsDouble ∧ maxValue.IsDouble ∧
    calculateTax (Number.mul (Number.ofNat 2) maxValue) = inf false ∧
    (Number.mul (Number.ofNat 2) (calculateTax maxValue)).IsDouble := by
  have h1 : calculateTax (Number.mul (Number.ofNat 3) (Number.ofNat 1000000001)) =
      fin false 7549747207549747 1050 := by decide!
  have h2 : Number.mul (Number.ofNat 3) (calculateTax (Number.ofNat 1000000001)) =
      fin false 7549747207549748 1050 := by decide!
  refine ⟨by decide!, by decide!, ?_, by decide!, by decide!, by decide!, by decide!⟩
  rw [h1, h2, toRat_fin_low _ _ (by norm_num), toRat_fin_low _ _ (by norm_num)]
  norm_num [sgn, abs_le]

/-- C5 (amended): in exact arithmetic `calculateTax` is homogeneous. On finite
doubles `k`, `x` with `|k * x| <= 2^23` the product does not overflow and
`calculateTax(k * x)` and `k * calculateTax(x)` differ by at most `1e-9`;
whenever `k * x` does not overflow the two are finite doubles that differ by
at most `2^-50 + |k * x| * 2^-53`. -/
theorem calculateTax_scaling (k x : Number) (hk : k.IsDouble) (hx : x.IsDouble) :
    (∀ a b : ℚ, calculateTaxExact (a * b) = a * calculateTaxExact b) ∧
    (|toRat k * toRat x| ≤ 2 ^ 23 →
      (Number.mul k x).isFinite = true ∧
      |toRat (calculateTax (Number.mul k x)) - toRat (Number.mul k (calculateTax x))| ≤
        1 / 10 ^ 9) ∧
    ((Number.mul k x).isFinite = true →
      (calculateTax (Number.mul k x)).IsDouble ∧
      (Number.mul k (calculateTax x)).IsDouble ∧
      |toRat (calculateTax (Number.mul k x)) - toRat (Number.mul k (calculateTax x))| ≤
        1 / 2 ^ 50 + |toRat k * toRat x| / 2 ^ 53) := by
  have main : (Number.mul k x).isFinite = true →
      (calculateTax (Number.mul k x)).IsDouble ∧
      (Number.mul k (calculateTax x)).IsDouble ∧
      |toRat (calculateTax (Number.mul k x)) - toRat (Number.mul k (calculateTax x))| ≤
        1 / 2 ^ 50 + |toRat k * toRat x| / 2 ^ 53 := by
    intro hkx
    have hfk := isFinite_of_isDouble hk
    have hfx := isFinite_of_isDouble hx
    have hft := isFinite_of_isDouble (calculateTax_isDouble hx)
    have hP : (Number.mul k x).IsDouble := isDouble_of_isNumber (mul_isNumber k x) hkx
    have hB : (Number.mul k (calculateTax x)).isFinite = true :=
      mul_finite_of_mag_le hfk hfx hft (mag_calculateTax_le hx) hkx
    have h1 := mul_err hfk hfx hkx
    have h2 := calculateTax_error _ hP
    have h3 := calculateTax_error x hx
    have h4 := mul_err hfk hft hB
    rw [← two_pow_1075_succ] at h1 h4
    exact ⟨calculateTax_isDouble hP, isDouble_of_isNumber (mul_isNumber _ _) hB,
      scaling_core _ _ _ _ _ _ _ underflow_le (abs_toRat_mul_underflow hk) h1 h2 h3 h4⟩
  refine ⟨?_, ?_, main⟩
  · intro a b
    unfold calculateTaxExact
    ring
  · intro hsmall
    have hfin := mul_finite_of_small hk hx hsmall
    exact ⟨hfin, le_trans (main hfin).2.2 (scaling_bound_small _ hsmall)⟩

theorem calculateTax_scaling_witness :
    (Number.ofNat 3).IsDouble ∧ (Number.ofNat 100).IsDouble ∧
    |toRat (Number.ofNat 3) * toRat (Number.ofNat 100)| ≤ 2 ^ 23 ∧
    (Number.mul (Number.ofNat 3) (Number.ofNat 100)).isFinite = true ∧
    |toRat (calculateTax (Number.mul (Number.ofNat 3) (Number.ofNat 100))) -
        toRat (Number.mul (Number.ofNat 3) (calculateTax (Number.ofNat 100)))| ≤
      1 / 10 ^ 9 := by
  have h1 : (Number.ofNat 3).IsDouble := by decide!
  have h2 : (Number.ofNat 100).IsDouble := by decide!
  have h3 : |toRat (Number.ofNat 3) * toRat (Number.ofNat 100)| ≤ 2 ^ 23 := by
    have e1 : Number.ofNat 3 = fin false 6755399441055744 1023 := by decide!
    have e2 : Number.ofNat 100 = fin false 7036874417766400 1028 := by decide!
    rw [e1, e2, toRat_fin_low _ _ (by norm_num), toRat_fin_low _ _ (by norm_num)]
    norm_num [sgn]
  exact ⟨h1, h2, h3, (calculateTax_scaling _ _ h1 h2).2.1 h3⟩

/-- C6: `calculateTax(-100)` is exactly the Number -15, and for every negative
finite double `x` the result is the Number product `x * 0.15`: a finite double
with the sign bit set, whose value is within rounding of 15% of `x`, and
which is non-zero as soon as `x` is at most `-2^-1072`. -/
theorem calculateTax_negative_income (x : Number) (hx : x.IsDouble) (hneg : toRat x < 0) :
    calculateTax (Number.neg (Number.ofNat 100)) = Number.neg (Number.ofNat 15) ∧
    calculateTax x = Number.mul x rate ∧
    (calculateTax x).IsDouble ∧ (calculateTax x).sign = true ∧
    |toRat (calculateTax x) - toRat x * (15 / 100)| ≤ 1 / 2 ^ 1075 + |toRat x| / 2 ^ 55 ∧
    (toRat x ≤ -(1 / 2 ^ 1072) → toRat (calculateTax x) < 0) := by
  refine ⟨by decide!, rfl, calculateTax_isDouble hx, ?_, calculateTax_error x hx,
    calculateTax_neg_of_le hx⟩
  rw [calculateTax_sign hx]
  exact sign_of_toRat_neg hneg

theorem calculateTax_negative_income_witness :
    (Number.neg (Number.ofNat 100)).IsDouble ∧ toRat (Number.neg (Number.ofNat 100)) < 0 ∧
    calculateTax (Number.neg (Number.ofNat 100)) = Number.fin true 8444249301319680 1025 := by
  have h1 : (Number.neg (Number.ofNat 100)).IsDouble := by decide!
  have h2 : toRat (Number.neg (Number.ofNat 100)) < 0 := by
    have e : Number.neg (Number.ofNat 100) = fin true 7036874417766400 1028 := by decide!
    rw [e, toRat_fin_low _ _ (by norm_num)]
    norm_num [sgn]
  have h3 := (calculateTax_negative_income _ h1 h2).1
  exact ⟨h1, h2, h3.trans (by decide!)⟩

/-- C7 fails as stated: there is an input on which the call throws; on the
BigInt `10n` it completes with a TypeError. -/
theorem calculateTaxJS_bigint_throws :
    (calculateTaxJS (emptyHost Unit) (Value.prim (Prim.bigint 10)) ()).1 =
      Except.error JSError.typeError := by
  rfl

/-- C7 (amended): on every Number input the call returns a Number,
`income * 0.15`, and does not throw; so it does on undefined, null, a boolean
or a string, which are converted to a Number first.  It throws a TypeError on
a BigInt or a Symbol, and on an object it completes as the object's conversion
does: it throws what the conversion throws, and otherwise goes on with the
primitive the conversion returns. -/
theorem calculateTaxJS_completion {σ : Type} (h : Host σ) (s : σ) :
    (∀ n : Number,
      calculateTaxJS h (Value.prim (Prim.number n)) s =
        (Except.ok (Value.prim (Prim.number (calculateTax n))), s) ∧
      (calculateTax n).IsNumber) ∧
    (∀ p : Prim, convertsToNumber p = true →
      ∃ n : Number, n.IsNumber ∧
        calculateTaxJS h (Value.prim p) s = (Except.ok (Value.prim (Prim.number n)), s)) ∧
    (∀ p : Prim, convertsToNumber p = false →
      calculateTaxJS h (Value.prim p) s = (Except.error JSError.typeError, s)) ∧
    (∀ f : σ → Except JSError Prim × σ,
      calculateTaxJS h (Value.object f) s =
        match f s with
        | (Except.error e, s1) => (Except.error e, s1)
        | (Except.ok p, s1) => calculateTaxJS h (Value.prim p) s1) := by
  refine ⟨fun n => ⟨rfl, mul_isNumber n rate⟩, ?_, ?_, ?_⟩
  · intro p hp
    cases p with
    | undefined => exact ⟨_, mul_isNumber Number.nan rate, rfl⟩
    | null => exact ⟨_, mul_isNumber (Number.fin false 0 0) rate, rfl⟩
    | boolean b =>
      cases b with
      | true => exact ⟨_, mul_isNumber (Number.ofNat 1) rate, rfl⟩
      | false => exact ⟨_, mul_isNumber (Number.fin false 0 0) rate, rfl⟩
    | number n => exact ⟨_, mul_isNumber n rate, rfl⟩
    | bigint i => simp [convertsToNumber] at hp
    | symbol => simp [convertsToNumber] at hp
    | string t n => exact ⟨_, mul_isNumber n rate, rfl⟩
  · intro p hp
    cases p with
    | bigint i => rfl
    | symbol => rfl
    | undefined => simp [convertsToNumber] at hp
    | null => simp [convertsToNumber] at hp
    | boolean b => simp [convertsToNumber] at hp
    | number n => simp [convertsToNumber] at hp
    | string t n => simp [convertsToNumber] at hp
  · intro f
    simp only [calculateTaxJS, calculateTaxBody, eval, jsMul, toPrimitive]

theorem calculateTaxJS_completion_witness :
    calculateTaxJS (emptyHost Unit) (Value.prim (Prim.number (Number.ofNat 100))) () =
      (Except.ok (Value.prim (Prim.number (Number.ofNat 15))), ()) := by
  have h := ((calculateTaxJS_completion (emptyHost Unit) ()).1 (Number.ofNat 100)).1
  have e : calculateTax (Number.ofNat 100) = Number.ofNat 15 := by decide!
  rw [e] at h
  exact h

/-- C8 fails as stated: on an object whose `valueOf` returns and increments a
counter, the call writes the state, and two calls with that same input, from
the states 0 and 1, return different Numbers. -/
theorem calculateTaxJS_object_impure :
    (calculateTaxJS (emptyHost Nat) counterObject 0).2 = 1 ∧
    returnedNumber (calculateTaxJS (emptyHost Nat) counterObject 0).1 =
      some (calculateTax (Number.ofNat 0)) ∧
    returnedNumber (calculateTaxJS (emptyHost Nat) counterObject 1).1 =
      some (calculateTax (Number.ofNat 1)) ∧
    calculateTax (Number.ofNat 0) ≠ calculateTax (Number.ofNat 1) := by
  refine ⟨rfl, rfl, rfl, by decide!⟩

/-- C8 (amended): on every primitive input, so on every Number, the call is
pure and deterministic: from any two states and under any two sets of outer
bindings it completes alike, and it leaves the state as it found it; on a
Number input the result is the function `income * 0.15` of the income alone. -/
theorem calculateTaxJS_pure_on_primitives {σ : Type} (h h1 : Host σ) (s s1 : σ) (p : Prim) :
    (calculateTaxJS h (Value.prim p) s).1 = (calculateTaxJS h1 (Value.prim p) s1).1 ∧
    (calculateTaxJS h (Value.prim p) s).2 = s ∧
    (∀ n : Number, (calculateTaxJS h (Value.prim (Prim.number n)) s).1 =
      Except.ok (Value.prim (Prim.number (calculateTax n)))) := by
  refine ⟨?_, ?_, fun n => rfl⟩
  · cases p with
    | boolean b => cases b <;> rfl
    | _ => rfl
  · cases p with
    | boolean b => cases b <;> rfl
    | _ => rfl

theorem calculateTaxJS_pure_on_primitives_witness :
    (calculateTaxJS (emptyHost Nat) (Value.prim (Prim.number (Number.ofNat 100))) 0).1 =
      (calculateTaxJS (emptyHost Nat) (Value.prim (Prim.number (Number.ofNat 100))) 7).1 ∧
    (calculateTaxJS (emptyHost Nat) (Value.prim (Prim.number (Number.ofNat 100))) 7).2 = 7 :=
  ⟨(calculateTaxJS_pure_on_primitives (emptyHost Nat) (emptyHost Nat) 0 7
      (Prim.number (Number.ofNat 100))).1,
    (calculateTaxJS_pure_on_primitives (emptyHost Nat) (emptyHost Nat) 7 7
      (Prim.number (Number.ofNat 100))).2.1⟩

/-- C9: a non-finite income gives a non-finite tax; NaN gives NaN and each
infinity gives itself. -/
theorem calculateTax_nonfinite (x : Number) (h : x.isFinite = false) :
    (calculateTax x).isFinite = false ∧
    calculateTax nan = nan ∧
    calculateTax (inf false) = inf false ∧
    calculateTax (inf true) = inf true := by
  refine ⟨?_, by simp [calculateTax, Number.mul, rate],
    by simp [calculateTax, Number.mul, rate], by simp [calculateTax, Number.mul, rate]⟩
  cases x with
  | nan => simp [calculateTax, Number.mul, rate, isFinite]
  | inf s => simp [calculateTax, Number.mul, rate, isFinite]
  | fin s m e => simp [isFinite] at h

theorem calculateTax_nonfinite_witness :
    (inf true).isFinite = false ∧ (calculateTax (inf true)).isFinite = false :=
  ⟨rfl, (calculateTax_nonfinite (inf true) rfl).1⟩

/-- C10: on finite doubles a higher income never yields a lower tax (both
taxes are finite doubles and their values are ordered like the incomes), and
in exact arithmetic the order is strict. -/
theorem calculateTax_monotone (x y : Number) (hx : x.IsDouble) (hy : y.IsDouble)
    (h : toRat x ≤ toRat y) :
    (calculateTax x).IsDouble ∧ (calculateTax y).IsDouble ∧
    toRat (calculateTax x) ≤ toRat (calculateTax y) ∧
    ∀ a b : ℚ, a < b → calculateTaxExact a < calculateTaxExact b := by
  refine ⟨calculateTax_isDouble hx, calculateTax_isDouble hy,
    calculateTax_mono_aux hx hy h, ?_⟩
  intro a b hab
  unfold calculateTaxExact
  linarith

theorem calculateTax_monotone_witness :
    (Number.ofNat 100).IsDouble ∧ (Number.ofNat 1000).IsDouble ∧
    toRat (Number.ofNat 100) ≤ toRat (Number.ofNat 1000) ∧
    toRat (calculateTax (Number.ofNat 100)) ≤ toRat (calculateTax (Number.ofNat 1000)) := by
  have h1 : (Number.ofNat 100).IsDouble := by decide!
  have h2 : (Number.ofNat 1000).IsDouble := by decide!
  have h3 : toRat (Number.ofNat 100) ≤ toRat (Number.ofNat 1000) := by
    have e1 : Number.ofNat 100 = fin false 7036874417766400 1028 := by decide!
    have e2 : Number.ofNat 1000 = fin false 8796093022208000 1031 := by decide!
    rw [e1, e2, toRat_fin_low _ _ (by norm_num), toRat_fin_low _ _ (by norm_num)]
    norm_num [sgn]
  exact ⟨h1, h2, h3, (calculateTax_monotone _ _ h1 h2 h3).2.2.1⟩

/-- C11: for every finite non-negative double `x` the tax is a finite double
with `0 <= calculateTax(x) <= x`; in exact arithmetic the same bounds hold and
the tax of a non-negative income is 0 only if the income is 0. -/
theorem calculateTax_bounded_by_income (x : Number) (hx : x.IsDouble) (h0 : 0 ≤ toRat x) :
    (calculateTax x).IsDouble ∧
    0 ≤ toRat (calculateTax x) ∧ toRat (calculateTax x) ≤ toRat x ∧
    ∀ a : ℚ, 0 ≤ a →
      0 ≤ calculateTaxExact a ∧ calculateTaxExact a ≤ a ∧ (calculateTaxExact a = 0 → a = 0) := by
  have hD : (0 : ℚ) < 2 ^ 1074 := pow_pos (by norm_num) 1074
  have hle : ((mag (calculateTax x) : ℕ) : ℚ) ≤ (mag x : ℚ) := by
    exact_mod_cast mag_calculateTax_le hx
  refine ⟨calculateTax_isDouble hx, ?_, ?_, ?_⟩
  · rw [toRat_calculateTax_of_nonneg hx h0]
    exact div_nonneg (Nat.cast_nonneg _) (le_of_lt hD)
  · rw [toRat_calculateTax_of_nonneg hx h0, toRat_eq_mag_of_nonneg hx h0]
    exact div_le_div_of_nonneg_right hle (le_of_lt hD)
  · intro a ha
    unfold calculateTaxExact
    refine ⟨by linarith, by linarith, fun h => by linarith⟩

theorem calculateTax_bounded_by_income_witness :
    (Number.ofNat 100).IsDouble ∧ 0 ≤ toRat (Number.ofNat 100) ∧
    0 ≤ toRat (calculateTax (Number.ofNat 100)) ∧
    toRat (calculateTax (Number.ofNat 100)) ≤ toRat (Number.ofNat 100) := by
  have h1 : (Number.ofNat 100).IsDouble := by decide!
  have h2 : 0 ≤ toRat (Number.ofNat 100) := by
    have e : Number.ofNat 100 = fin false 7036874417766400 1028 := by decide!
    rw [e, toRat_fin_low _ _ (by norm_num)]
    norm_num [sgn]
  have h := calculateTax_bounded_by_income _ h1 h2
  exact ⟨h1, h2, h.2.1, h.2.2.1⟩

/-- C12: `calculateTax` is odd, exactly: `calculateTax(-x)` is the Number
`-calculateTax(x)` for every Number `x` (so in particular for every finite
one), the values are opposite, and the same holds in exact arithmetic. -/
theorem calculateTax_odd (x : Number) :
    calculateTax (Number.neg x) = Number.neg (calculateTax x) ∧
    toRat (calculateTax (Number.neg x)) = - toRat (calculateTax x) ∧
    ∀ a : ℚ, calculateTaxExact (-a) = - calculateTaxExact a := by
  refine ⟨calculateTax_neg_eq x, ?_, ?_⟩
  · rw [calculateTax_neg_eq, toRat_neg]
  · intro a
    unfold calculateTaxExact
    ring

end Tax
